import Mathlib

/-!
# Verification of the plasma_protocol claim model

A shallow embedding of the claim key/value model and its merge algorithm from
`src/claims/{keys,values,subsets}.rs` of the `plasma_protocol` repository,
together with proofs and refutations of the specified properties.

Timestamps: the repository uses `NonZeroUnixMillis` from the external `cub`
crate, a non-zero Unix-millisecond timestamp ordered numerically; it is
modelled here as `Nat` (`UnixMillis`).  `NonZeroUnixMillis::now()` is read once
at the start of `ClaimSet::merge`; the embedding passes that sample as an
explicit `now` argument.

Strings: Rust's `ArrayString<N>` bounds the UTF-8 byte length by `N`.  Every
string manipulated by the claim model (claim names, game ids, realm ids,
aggregation tags) is ASCII, where the byte length equals the character count,
so capacity checks are modelled with `String.length`.

Hash maps and sets: `HashMap` keys are unique and iteration order is
irrelevant to the algorithm (each loop iteration touches only its own key).
They are modelled as association lists; theorems that depend on key
uniqueness carry explicit `Nodup` hypotheses, which hold for any list that
represents an actual `HashMap`.
-/

namespace Plasma

/-- Millisecond timestamp (model of `NonZeroUnixMillis` from the `cub` crate). -/
abbrev UnixMillis := Nat

/-- Model of `NonZeroUnixMillis::MIN`, the least timestamp, used as the
"never synchronized" sentinel. -/
def unixMillisMin : UnixMillis := 0

/-- `ClaimAggregation` from `src/claims/values.rs`. -/
inductive ClaimAggregation
  | Max
  | Min
  | New
deriving DecidableEq, Repr

/-- `ClaimValue` from `src/claims/values.rs` (field order as in the source). -/
structure ClaimValue where
  date_expires : Option UnixMillis
  date_updated : UnixMillis
  value : Nat
deriving DecidableEq, Repr

/-- The `replace` boolean computed at the top of `ClaimValue::merge`. -/
def ClaimValue.replaceCond (self new : ClaimValue) (aggregation : ClaimAggregation) : Bool :=
  match aggregation with
  | ClaimAggregation.New => decide (new.date_updated ≥ self.date_updated)
  | ClaimAggregation.Min => decide (new.value < self.value)
  | ClaimAggregation.Max => decide (new.value > self.value)

/-- `ClaimValue::merge` from `src/claims/values.rs`.  The Rust function mutates
`self` in place and returns `changed`; the embedding returns the updated value
together with the flag.  Note that the third condition reads `self.date_updated`
*after* the possible timestamp update and `self.date_expires` before any
expiration update, exactly as the sequential Rust code does. -/
def ClaimValue.merge (self new : ClaimValue) (aggregation : ClaimAggregation) :
    ClaimValue × Bool :=
  let replace := self.replaceCond new aggregation
  let changed1 := replace && decide (new.value ≠ self.value)
  let self1 := if changed1 then { self with value := new.value } else self
  let changed2 := replace && decide (new.date_updated ≠ self1.date_updated)
  let self2 := if changed2 then { self1 with date_updated := new.date_updated } else self1
  let changed3 := (replace || decide (new.date_updated ≥ self2.date_updated))
      && decide (self2.date_expires ≠ new.date_expires)
  let self3 := if changed3 then { self2 with date_expires := new.date_expires } else self2
  (self3, changed1 || changed2 || changed3)

/-- Folding `ClaimValue::merge` over a sequence of incoming values. -/
def ClaimValue.mergeAll (self : ClaimValue) (vs : List ClaimValue)
    (aggregation : ClaimAggregation) : ClaimValue :=
  vs.foldl (fun acc v => (acc.merge v aggregation).1) self

/-- `ClaimName` from `src/claims/keys.rs`: a wrapper around `ArrayString<28>`. -/
structure ClaimName where
  str : String
deriving DecidableEq, Repr

/-- `ClaimName::from_str`: succeeds iff the string fits the 28-byte capacity. -/
def ClaimName.fromStr (s : String) : Option ClaimName :=
  if s.length ≤ 28 then some ⟨s⟩ else none

/-- `ClaimKey` from `src/claims/keys.rs`. -/
structure ClaimKey where
  name : ClaimName
  aggregation : ClaimAggregation
deriving DecidableEq, Repr

/-- `GameId` from `src/ids/game.rs`: a wrapper around `ArrayString<12>`. -/
structure GameId where
  str : String
deriving DecidableEq, Repr

/-- `GameId::from_str` (via `impl_wrapper_from_str!`): capacity 12 bytes. -/
def GameId.fromStr (s : String) : Option GameId :=
  if s.length ≤ 12 then some ⟨s⟩ else none

/-- `RealmName` from `src/names/realm.rs`: a wrapper around `ArrayString<12>`. -/
structure RealmName where
  str : String
deriving DecidableEq, Repr

/-- `RealmName::from_str`: rejects `"www"`, otherwise capacity 12 bytes. -/
def RealmName.fromStr (s : String) : Option RealmName :=
  if s = "www" then none
  else if s.length ≤ 12 then some ⟨s⟩ else none

/-- `ServerNumber` wraps a `NonZeroU8`. -/
structure ServerNumber where
  val : Nat
deriving DecidableEq, Repr

/-- `InvitationId` from `src/ids/game.rs`. -/
structure InvitationId where
  server_number : ServerNumber
  number : Nat
deriving DecidableEq, Repr

/-- `InvitationId::ALPHABET`. -/
def invitationAlphabet : List Char := "CDFHJKLMNPRTVWXY".data

/-- `Display for InvitationId`: 6 characters, each
`ALPHABET[(n + i) % 16]` with `n` shifted right by 4 bits per step. -/
def InvitationId.toText (id : InvitationId) : String :=
  let start := id.server_number.val <<< 16 ||| id.number
  ⟨((List.range 6).foldl
      (fun (acc : List Char × Nat) i =>
        (acc.1 ++ [invitationAlphabet.getD ((acc.2 + i) % 16) 'C'], acc.2 >>> 4))
      ([], start)).1⟩

/-- `InvitationId::from_str`: decodes 6 alphabet characters in reverse,
un-rotating each position by its index (Rust `wrapping_sub` on a value `< 16`
followed by `% 16`, i.e. subtraction modulo 16). -/
def InvitationId.fromStr (s : String) : Option InvitationId :=
  if s.data.length ≠ 6 then none
  else
    let ret? := s.data.enum.reverse.foldl
      (fun (acc : Option Nat) (p : Nat × Char) =>
        acc.bind fun ret =>
          match invitationAlphabet.findIdx? (fun n => n = p.2) with
          | none => none
          | some raw => some (ret * 16 + ((raw + 16) - p.1 % 16) % 16))
      (some 0)
    ret?.bind fun ret =>
      let sn := (ret >>> 16) % 256
      if sn = 0 then none
      else some { server_number := ⟨sn⟩, number := ret % 65536 }

/-- `RealmId` from `src/ids/realm.rs`. -/
inductive RealmId
  | Named (name : RealmName)
  | PublicDefault
  | Temporary (id : InvitationId)
deriving DecidableEq, Repr

/-- `Display for RealmId`. -/
def RealmId.toText : RealmId → String
  | RealmId.PublicDefault => "public/default"
  | RealmId.Named n => "named/" ++ n.str
  | RealmId.Temporary i => "temporary/" ++ i.toText

/-- Splits a character list at the first occurrence of `c`
(model of `str::split_once`). -/
def splitOnceAux (c : Char) : List Char → Option (List Char × List Char)
  | [] => none
  | a :: rest =>
    if a = c then some ([], rest)
    else (splitOnceAux c rest).map fun p => (a :: p.1, p.2)

/-- `str::split_once`. -/
def strSplitOnce (s : String) (c : Char) : Option (String × String) :=
  (splitOnceAux c s.data).map fun p => (⟨p.1⟩, ⟨p.2⟩)

/-- `str::rsplit_once`: split at the last occurrence. -/
def strRSplitOnce (s : String) (c : Char) : Option (String × String) :=
  (splitOnceAux c s.data.reverse).map fun p => (⟨p.2.reverse⟩, ⟨p.1.reverse⟩)

/-- Helper for `split_once_nth`: skip `n` occurrences of `c`, then split at the
next one.  This mirrors `s.match_indices(p).nth(n)` in the source: Rust's
`Iterator::nth` is 0-indexed, so `n = 2` selects the THIRD occurrence. -/
def splitOnceNthAux (c : Char) : Nat → List Char → Option (List Char × List Char)
  | _, [] => none
  | 0, a :: rest =>
    if a = c then some ([], rest)
    else (splitOnceNthAux c 0 rest).map fun p => (a :: p.1, p.2)
  | n + 1, a :: rest =>
    if a = c then (splitOnceNthAux c n rest).map fun p => (a :: p.1, p.2)
    else (splitOnceNthAux c (n + 1) rest).map fun p => (a :: p.1, p.2)

/-- `split_once_nth` from `src/claims/keys.rs`. -/
def split_once_nth (s : String) (c : Char) (n : Nat) : Option (String × String) :=
  (splitOnceNthAux c n s.data).map fun p => (⟨p.1⟩, ⟨p.2⟩)

/-- `Display for ClaimAggregation` (strum, variant name). -/
def ClaimAggregation.toText : ClaimAggregation → String
  | ClaimAggregation.Max => "Max"
  | ClaimAggregation.Min => "Min"
  | ClaimAggregation.New => "New"

/-- `ClaimAggregation::from_str` (strum `EnumString`, exact variant name). -/
def ClaimAggregation.fromStr (s : String) : Option ClaimAggregation :=
  if s = "Max" then some ClaimAggregation.Max
  else if s = "Min" then some ClaimAggregation.Min
  else if s = "New" then some ClaimAggregation.New
  else none

/-- `Display for ClaimKey`: `<name>/<aggregation>`. -/
def ClaimKey.toText (k : ClaimKey) : String :=
  k.name.str ++ "/" ++ k.aggregation.toText

/-- `ClaimKey::from_str`: `rsplit_once('/')`, then parse both parts.
Failure collapses the source's distinguished error variants to `none`. -/
def ClaimKey.fromStr (s : String) : Option ClaimKey := do
  let (namePart, aggPart) ← strRSplitOnce s '/'
  let n ← ClaimName.fromStr namePart
  let a ← ClaimAggregation.fromStr aggPart
  pure ⟨n, a⟩

/-- `GameClaimKey` from `src/claims/keys.rs`. -/
structure GameClaimKey where
  game_id : GameId
  key : ClaimKey
deriving DecidableEq, Repr

/-- `Display for GameClaimKey`: `<game_id>/<claim_key>`. -/
def GameClaimKey.toText (k : GameClaimKey) : String :=
  k.game_id.str ++ "/" ++ k.key.toText

/-- `GameClaimKey::from_str`: `split_once('/')` (first slash). -/
def GameClaimKey.fromStr (s : String) : Option GameClaimKey := do
  let (gamePart, keyPart) ← strSplitOnce s '/'
  let g ← GameId.fromStr gamePart
  let k ← ClaimKey.fromStr keyPart
  pure ⟨g, k⟩

/-- `RealmClaimKey` from `src/claims/keys.rs`. -/
structure RealmClaimKey where
  realm_id : RealmId
  key : GameClaimKey
deriving DecidableEq, Repr

/-- `Display for RealmClaimKey`: `<realm_id>/<game_claim_key>`. -/
def RealmClaimKey.toText (k : RealmClaimKey) : String :=
  k.realm_id.toText ++ "/" ++ k.key.toText

/-- `RealmId::from_str` from `src/ids/realm.rs`. -/
def RealmId.fromStr (s : String) : Option RealmId :=
  if s = "public/default" then some RealmId.PublicDefault
  else do
    let (pfx, value) ← strSplitOnce s '/'
    if pfx = "named" then (RealmName.fromStr value).map RealmId.Named
    else if pfx = "temporary" then (InvitationId.fromStr value).map RealmId.Temporary
    else none

/-- `RealmClaimKey::from_str`: `split_once_nth(s, '/', 2)`, then parse both
parts. -/
def RealmClaimKey.fromStr (s : String) : Option RealmClaimKey := do
  let (realmPart, keyPart) ← split_once_nth s '/' 2
  let r ← RealmId.fromStr realmPart
  let k ← GameClaimKey.fromStr keyPart
  pure ⟨r, k⟩

/-- `ClaimScope` from `src/claims/subsets.rs`. -/
inductive ClaimScope
  | Global
  | Game
  | Realm
deriving DecidableEq, Repr

/-- `Display for ClaimScope` (strum, variant name). -/
def ClaimScope.toText : ClaimScope → String
  | ClaimScope.Global => "Global"
  | ClaimScope.Game => "Game"
  | ClaimScope.Realm => "Realm"

/-- `ClaimScope::from_str` (strum `EnumString`, exact variant name). -/
def ClaimScope.fromStr (s : String) : Option ClaimScope :=
  if s = "Global" then some ClaimScope.Global
  else if s = "Game" then some ClaimScope.Game
  else if s = "Realm" then some ClaimScope.Realm
  else none

/-- `ScopeClaimKey` from `src/claims/keys.rs`. -/
structure ScopeClaimKey where
  scope : ClaimScope
  key : ClaimKey
deriving DecidableEq, Repr

/-- `Display for ScopeClaimKey`: `<scope>/<claim_key>`. -/
def ScopeClaimKey.toText (k : ScopeClaimKey) : String :=
  k.scope.toText ++ "/" ++ k.key.toText

/-- `ScopeClaimKey::from_str`: `split_once('/')`. -/
def ScopeClaimKey.fromStr (s : String) : Option ScopeClaimKey := do
  let (scopePart, keyPart) ← strSplitOnce s '/'
  let sc ← ClaimScope.fromStr scopePart
  let k ← ClaimKey.fromStr keyPart
  pure ⟨sc, k⟩

/-- `ScopeClaimKey::high_score()` (the `ClaimName::new("high_score")` unwrap
succeeds: 10 ≤ 28). -/
def ScopeClaimKey.high_score : ScopeClaimKey :=
  ⟨ClaimScope.Game, ⟨⟨"high_score"⟩, ClaimAggregation.Max⟩⟩

/-- `ScopeClaimKey::rank()`. -/
def ScopeClaimKey.rank : ScopeClaimKey :=
  ⟨ClaimScope.Game, ⟨⟨"rank"⟩, ClaimAggregation.New⟩⟩

/-- `ScopeClaimKey::streak()`. -/
def ScopeClaimKey.streak : ScopeClaimKey :=
  ⟨ClaimScope.Global, ⟨⟨"streak"⟩, ClaimAggregation.Max⟩⟩

/-- `SkuId` from `src/ids/tokens.rs`: wraps a `NonZeroU64`, so its value is
non-zero and below `2 ^ 64`; displayed in decimal. -/
structure SkuId where
  val : Nat
deriving DecidableEq, Repr

/-- `ScopeClaimKey::product(scope, sku_id)`: builds the name
`product_<sku>` with `format!` (decimal rendering of the `u64`) and feeds it
to `ClaimName::new`, whose internal `unwrap` is modelled by `Option`. -/
def ScopeClaimKey.product (scope : ClaimScope) (sku_id : SkuId) : Option ScopeClaimKey :=
  (ClaimName.fromStr ("product_" ++ Nat.repr sku_id.val)).map fun n =>
    ⟨scope, ⟨n, ClaimAggregation.Max⟩⟩

/-- `ClaimSubset` from `src/claims/subsets.rs`; the `HashMap` of claims is an
association list with unique keys. -/
structure ClaimSubset where
  claims : List (ScopeClaimKey × ClaimValue)
  date_synchronized : UnixMillis
deriving DecidableEq, Repr

/-- `ClaimSubset::first_updated` returns the minimum `date_updated`, or
`NonZeroUnixMillis::MAX` when empty.  The sentinel is modelled as `none`; the
single call site takes `min` with it, where `none` behaves as the sentinel
(`MAX` bounds every representable timestamp). -/
def ClaimSubset.first_updated? (s : ClaimSubset) : Option UnixMillis :=
  (s.claims.map fun p => p.2.date_updated).min?

/-- Association-list lookup (model of `HashMap` lookup / `Entry` probing). -/
def lookupKey {K V : Type} [DecidableEq K] : List (K × V) → K → Option V
  | [], _ => none
  | p :: rest, k => if p.1 = k then some p.2 else lookupKey rest k

/-- Association-list in-place update (model of mutating an occupied
`HashMap` entry). -/
def updateKey {K V : Type} [DecidableEq K] (l : List (K × V)) (k : K) (v : V) :
    List (K × V) :=
  l.map fun p => if p.1 = k then (k, v) else p

/-- `ClaimSet` from `src/claims/subsets.rs` (field order as in the source). -/
structure ClaimSet where
  game : List (GameClaimKey × ClaimValue)
  global : List (ClaimKey × ClaimValue)
  realm : List (RealmClaimKey × ClaimValue)
deriving DecidableEq, Repr

/-- `ClaimSet::default()`. -/
def ClaimSet.empty : ClaimSet := ⟨[], [], []⟩

/-- `ClaimSet::filtered_subset` from `src/claims/subsets.rs`: global claims,
game claims restricted to `game_id`, and realm claims restricted to
`(game_id, realm_id)`, re-tagged with scope and filtered. -/
def ClaimSet.filtered_subset (s : ClaimSet) (filter : ScopeClaimKey → ClaimValue → Bool)
    (date_synchronized : Option UnixMillis) (game_id : GameId) (realm_id : RealmId) :
    ClaimSubset :=
  let gl := s.global.filterMap fun p =>
    let k : ScopeClaimKey := ⟨ClaimScope.Global, p.1⟩
    if filter k p.2 then some (k, p.2) else none
  let gm := s.game.filterMap fun p =>
    if p.1.game_id = game_id then
      let k : ScopeClaimKey := ⟨ClaimScope.Game, p.1.key⟩
      if filter k p.2 then some (k, p.2) else none
    else none
  let rl := s.realm.filterMap fun p =>
    if p.1.key.game_id = game_id ∧ p.1.realm_id = realm_id then
      let k : ScopeClaimKey := ⟨ClaimScope.Realm, p.1.key.key⟩
      if filter k p.2 then some (k, p.2) else none
    else none
  { claims := gl ++ gm ++ rl
    date_synchronized := date_synchronized.getD unixMillisMin }

/-- The expiration test of the `retain` closure in `ClaimSet::merge`:
`date_expires.map(|e| e < now).unwrap_or(false)`. -/
def ClaimValue.expiredBefore (v : ClaimValue) (now : UnixMillis) : Bool :=
  match v.date_expires with
  | some e => decide (e < now)
  | none => false

/-- Result of `ClaimSet::merge`: the mutated set, the reply subset
(`Option`, always `Some` in the source) and the `store_changed` flag. -/
structure MergeResult where
  set : ClaimSet
  reply : Option ClaimSubset
  changed : Bool
deriving DecidableEq, Repr

/-- The reply subset's key list (empty when the reply is absent). -/
def MergeResult.replyKeys (m : MergeResult) : List ScopeClaimKey :=
  match m.reply with
  | some s => s.claims.map fun p => p.1
  | none => []

/-- State threaded through the per-claim loop of `ClaimSet::merge`. -/
structure MergeLoop where
  set : ClaimSet
  changed : Bool
  changed_recently : List ScopeClaimKey
deriving DecidableEq, Repr

/-- `HashSet::insert` on the changed-recently set (membership semantics). -/
def insertRecently (cr : List ScopeClaimKey) (k : ScopeClaimKey) : List ScopeClaimKey :=
  if k ∈ cr then cr else k :: cr

/-- `HashSet::remove` on the changed-recently set. -/
def removeRecently (cr : List ScopeClaimKey) (k : ScopeClaimKey) : List ScopeClaimKey :=
  cr.filter fun x => decide (x ≠ k)

/-- One iteration of the `for (scope_key, value) in &new.claims` loop of
`ClaimSet::merge`: resolve the scoped key to its partition; insert verbatim if
vacant (no echo); otherwise merge and update the changed-recently set
according to whether the stored value now equals the sender's value. -/
def mergeStep (game_id : GameId) (realm_id : RealmId) (st : MergeLoop)
    (p : ScopeClaimKey × ClaimValue) : MergeLoop :=
  match p.1.scope with
  | ClaimScope.Global =>
    match lookupKey st.set.global p.1.key with
    | none =>
      { st with
        set := { st.set with global := st.set.global ++ [(p.1.key, p.2)] }
        changed := true }
    | some occupied =>
      let m := occupied.merge p.2 p.1.key.aggregation
      { set := { st.set with global := updateKey st.set.global p.1.key m.1 }
        changed := st.changed || m.2
        changed_recently :=
          if m.1 = p.2 then removeRecently st.changed_recently p.1
          else insertRecently st.changed_recently p.1 }
  | ClaimScope.Game =>
    match lookupKey st.set.game ⟨game_id, p.1.key⟩ with
    | none =>
      { st with
        set := { st.set with game := st.set.game ++ [(⟨game_id, p.1.key⟩, p.2)] }
        changed := true }
    | some occupied =>
      let m := occupied.merge p.2 p.1.key.aggregation
      { set := { st.set with game := updateKey st.set.game ⟨game_id, p.1.key⟩ m.1 }
        changed := st.changed || m.2
        changed_recently :=
          if m.1 = p.2 then removeRecently st.changed_recently p.1
          else insertRecently st.changed_recently p.1 }
  | ClaimScope.Realm =>
    match lookupKey st.set.realm ⟨realm_id, ⟨game_id, p.1.key⟩⟩ with
    | none =>
      { st with
        set := { st.set with
                  realm := st.set.realm ++ [(⟨realm_id, ⟨game_id, p.1.key⟩⟩, p.2)] }
        changed := true }
    | some occupied =>
      let m := occupied.merge p.2 p.1.key.aggregation
      { set := { st.set with realm := updateKey st.set.realm ⟨realm_id, ⟨game_id, p.1.key⟩⟩ m.1 }
        changed := st.changed || m.2
        changed_recently :=
          if m.1 = p.2 then removeRecently st.changed_recently p.1
          else insertRecently st.changed_recently p.1 }

/-- The whole `for (scope_key, value) in &new.claims` loop of
`ClaimSet::merge`, as a fold of `mergeStep`. -/
def mergeLoop (game_id : GameId) (realm_id : RealmId) (st : MergeLoop)
    (l : List (ScopeClaimKey × ClaimValue)) : MergeLoop :=
  l.foldl (mergeStep game_id realm_id) st

/-- The expiration sweep at the start of `ClaimSet::merge`: the three `retain`
passes, which keep only entries that are not expired before `now`. -/
def ClaimSet.sweep (s : ClaimSet) (now : UnixMillis) : ClaimSet :=
  { game := s.game.filter fun p => !(p.2.expiredBefore now)
    global := s.global.filter fun p => !(p.2.expiredBefore now)
    realm := s.realm.filter fun p => !(p.2.expiredBefore now) }

/-- Whether the expiration sweep removed anything (the `changed` effect of the
`retain` closures). -/
def ClaimSet.sweepChanged (s : ClaimSet) (now : UnixMillis) : Bool :=
  s.global.any (fun p => p.2.expiredBefore now)
    || s.game.any (fun p => p.2.expiredBefore now)
    || s.realm.any (fun p => p.2.expiredBefore now)

/-- `cutoff = new.first_updated().min(new.date_synchronized)`; the `none`
(empty-subset) sentinel is `NonZeroUnixMillis::MAX`, so the minimum is then
`date_synchronized`. -/
def ClaimSubset.cutoff (new : ClaimSubset) : UnixMillis :=
  match new.first_updated? with
  | some m => min m new.date_synchronized
  | none => new.date_synchronized

/-- The loop state entering the per-claim loop of `ClaimSet::merge`: the swept
store, the sweep's `changed` flag, and the changed-recently set seeded with
the keys of stored claims updated after the cutoff. -/
def mergeInit (s : ClaimSet) (new : ClaimSubset) (game_id : GameId)
    (realm_id : RealmId) (now : UnixMillis) : MergeLoop :=
  ⟨s.sweep now, s.sweepChanged now,
    ((s.sweep now).filtered_subset (fun _ v => decide (new.cutoff < v.date_updated))
      none game_id realm_id).claims.map fun p => p.1⟩

/-- `ClaimSet::merge` from `src/claims/subsets.rs`: sweep expired entries,
seed the changed-recently set from recently-updated stored claims, apply each
incoming claim, and build the reply from the changed-recently set.  `now` is
the single wall-clock sample taken at the start of the call. -/
def ClaimSet.merge (s : ClaimSet) (new : ClaimSubset) (game_id : GameId)
    (realm_id : RealmId) (now : UnixMillis) : MergeResult :=
  let final := mergeLoop game_id realm_id (mergeInit s new game_id realm_id now) new.claims
  let reply := final.set.filtered_subset (fun k _ => decide (k ∈ final.changed_recently))
      (some new.date_synchronized) game_id realm_id
  { set := final.set, reply := some reply, changed := final.changed }

/-- The `ClaimSet` obtained after `k` successive calls of `ClaimSet::merge`
with the same subset, game, realm and wall-clock sample. -/
def ClaimSet.mergeIter (s : ClaimSet) (new : ClaimSubset) (game_id : GameId)
    (realm_id : RealmId) (now : UnixMillis) : Nat → ClaimSet
  | 0 => s
  | k + 1 => ((s.mergeIter new game_id realm_id now k).merge new game_id realm_id now).set

/-- Whether an incoming claim's entry is already a fixpoint of the merge in
the partition it addresses. -/
def EntryFixed (game_id : GameId) (realm_id : RealmId) (T : ClaimSet)
    (q : ScopeClaimKey × ClaimValue) : Prop :=
  match q.1.scope with
  | ClaimScope.Global =>
      ∃ w, lookupKey T.global q.1.key = some w ∧ (w.merge q.2 q.1.key.aggregation).1 = w
  | ClaimScope.Game =>
      ∃ w, lookupKey T.game ⟨game_id, q.1.key⟩ = some w
        ∧ (w.merge q.2 q.1.key.aggregation).1 = w
  | ClaimScope.Realm =>
      ∃ w, lookupKey T.realm ⟨realm_id, ⟨game_id, q.1.key⟩⟩ = some w
        ∧ (w.merge q.2 q.1.key.aggregation).1 = w

/-! ## Helper lemmas about `ClaimValue.merge` -/

/-- Closed form of `ClaimValue.merge`: magnitude and timestamp are adopted
exactly under `replace`, the expiration under `replace` or a
not-older incoming timestamp. -/
theorem ClaimValue.merge_closed (s v : ClaimValue) (agg : ClaimAggregation) :
    (s.merge v agg).1 =
      ⟨if (s.replaceCond v agg || decide (s.date_updated ≤ v.date_updated)) = true
          then v.date_expires else s.date_expires,
        if s.replaceCond v agg = true then v.date_updated else s.date_updated,
        if s.replaceCond v agg = true then v.value else s.value⟩ := by
  rcases s with ⟨se, su, sv⟩
  rcases v with ⟨ve, vu, vv⟩
  by_cases hr : ClaimValue.replaceCond ⟨se, su, sv⟩ ⟨ve, vu, vv⟩ agg = true <;>
    simp only [ClaimValue.merge, hr] <;> split_ifs <;> simp_all

/-- Merging a value into itself changes nothing. -/
theorem ClaimValue.merge_self (v : ClaimValue) (agg : ClaimAggregation) :
    (v.merge v agg).1 = v := by
  rw [ClaimValue.merge_closed]
  rcases v with ⟨ve, vu, vv⟩
  split_ifs <;> simp_all

/-- Re-merging the same incoming value is a no-op on the stored value. -/
theorem ClaimValue.merge_idem (s v : ClaimValue) (agg : ClaimAggregation) :
    ((s.merge v agg).1.merge v agg).1 = (s.merge v agg).1 := by
  rw [ClaimValue.merge_closed, ClaimValue.merge_closed]
  rcases s with ⟨se, su, sv⟩
  rcases v with ⟨ve, vu, vv⟩
  cases agg <;>
    simp only [ClaimValue.replaceCond] <;> split_ifs <;> simp_all <;> omega

/-- The merged expiration always comes from one of the two sides. -/
theorem ClaimValue.merge_expires_origin (s v : ClaimValue) (agg : ClaimAggregation) :
    (s.merge v agg).1.date_expires = s.date_expires
    ∨ (s.merge v agg).1.date_expires = v.date_expires := by
  rw [ClaimValue.merge_closed]
  split_ifs <;> simp

/-- Under Max aggregation a single merge never decreases the magnitude. -/
theorem ClaimValue.merge_max_le (s v : ClaimValue) :
    s.value ≤ ((s.merge v ClaimAggregation.Max).1).value := by
  rw [ClaimValue.merge_closed]
  simp only [ClaimValue.replaceCond]
  split_ifs <;> simp_all <;> omega

/-- Under Min aggregation a single merge never increases the magnitude. -/
theorem ClaimValue.merge_min_le (s v : ClaimValue) :
    ((s.merge v ClaimAggregation.Min).1).value ≤ s.value := by
  rw [ClaimValue.merge_closed]
  simp only [ClaimValue.replaceCond]
  split_ifs <;> simp_all <;> omega

/-- Folding merges under Max never decreases the magnitude. -/
theorem ClaimValue.mergeAll_max_le (s : ClaimValue) (vs : List ClaimValue) :
    s.value ≤ (s.mergeAll vs ClaimAggregation.Max).value := by
  induction vs generalizing s with
  | nil => simp [ClaimValue.mergeAll]
  | cons v rest ih =>
    calc s.value ≤ ((s.merge v ClaimAggregation.Max).1).value := ClaimValue.merge_max_le s v
      _ ≤ _ := ih _

/-- Folding merges under Min never increases the magnitude. -/
theorem ClaimValue.mergeAll_min_le (s : ClaimValue) (vs : List ClaimValue) :
    (s.mergeAll vs ClaimAggregation.Min).value ≤ s.value := by
  induction vs generalizing s with
  | nil => simp [ClaimValue.mergeAll]
  | cons v rest ih =>
    calc (s.mergeAll (v :: rest) ClaimAggregation.Min).value
        ≤ ((s.merge v ClaimAggregation.Min).1).value := ih _
      _ ≤ s.value := ClaimValue.merge_min_le s v

/-! ## Association-list lemmas (HashMap model) -/

section AssocList

variable {K V : Type} [DecidableEq K]

theorem lookupKey_eq_none_iff {l : List (K × V)} {k : K} :
    lookupKey l k = none ↔ k ∉ l.map Prod.fst := by
  induction l with
  | nil => simp [lookupKey]
  | cons p rest ih =>
    simp only [lookupKey, List.map_cons, List.mem_cons]
    by_cases hp : p.1 = k
    · subst hp
      simp
    · have : ¬k = p.1 := fun hh => hp hh.symm
      simp [hp, ih, this]

theorem lookupKey_mem {l : List (K × V)} {k : K} {v : V} (h : lookupKey l k = some v) :
    (k, v) ∈ l := by
  induction l with
  | nil => simp [lookupKey] at h
  | cons p rest ih =>
    by_cases hp : p.1 = k
    · simp only [lookupKey, hp, if_pos] at h
      subst hp
      injection h with h
      subst h
      exact List.mem_cons_self _ _
    · simp only [lookupKey, hp, if_neg, if_false] at h
      exact List.mem_cons_of_mem _ (ih h)

theorem lookupKey_append_of_none {l m : List (K × V)} {k : K}
    (h : lookupKey l k = none) : lookupKey (l ++ m) k = lookupKey m k := by
  induction l with
  | nil => simp
  | cons p rest ih =>
    by_cases hp : p.1 = k
    · simp [lookupKey, hp] at h
    · simp only [lookupKey, hp, if_neg, if_false, List.cons_append] at h ⊢
      exact ih h

theorem lookupKey_append_of_some {l m : List (K × V)} {k : K} {v : V}
    (h : lookupKey l k = some v) : lookupKey (l ++ m) k = some v := by
  induction l with
  | nil => simp [lookupKey] at h
  | cons p rest ih =>
    by_cases hp : p.1 = k
    · simp only [lookupKey, hp, if_pos, List.cons_append] at h ⊢
      exact h
    · simp only [lookupKey, hp, if_neg, if_false, List.cons_append] at h ⊢
      exact ih h

theorem lookupKey_append_single_ne {l : List (K × V)} {k k' : K} {v : V}
    (h : k' ≠ k) : lookupKey (l ++ [(k, v)]) k' = lookupKey l k' := by
  cases hl : lookupKey l k' with
  | none =>
    rw [lookupKey_append_of_none hl]
    have h1 : ¬k = k' := fun hh => h hh.symm
    simp [lookupKey, h1, hl]
  | some w => exact lookupKey_append_of_some hl

theorem lookupKey_updateKey_ne {l : List (K × V)} {k k' : K} {v : V}
    (h : k' ≠ k) : lookupKey (updateKey l k v) k' = lookupKey l k' := by
  induction l with
  | nil => simp [updateKey, lookupKey]
  | cons p rest ih =>
    by_cases hp : p.1 = k
    · have h1 : ¬k = k' := fun hh => h hh.symm
      have h2 : ¬p.1 = k' := by rw [hp]; exact h1
      simp only [updateKey, List.map_cons, hp, if_pos, lookupKey, h1, if_neg, h2,
        if_false] at ih ⊢
      exact ih
    · simp only [updateKey, List.map_cons, hp, if_neg, if_false, lookupKey] at ih ⊢
      by_cases hp' : p.1 = k'
      · simp [hp']
      · simp only [hp', if_neg, if_false]
        exact ih

theorem lookupKey_updateKey_some {l : List (K × V)} {k : K} {v w : V}
    (h : lookupKey l k = some w) : lookupKey (updateKey l k v) k = some v := by
  induction l with
  | nil => simp [lookupKey] at h
  | cons p rest ih =>
    by_cases hp : p.1 = k
    · subst hp
      simp [updateKey, lookupKey]
    · have h' : lookupKey rest k = some w := by
        simpa [lookupKey, hp] using h
      simpa [updateKey, lookupKey, hp] using ih h' 

theorem updateKey_eq_self {l : List (K × V)} {k : K} {v : V}
    (h : ∀ p ∈ l, p.1 = k → p.2 = v) : updateKey l k v = l := by
  induction l with
  | nil => rfl
  | cons p rest ih =>
    have hrest : updateKey rest k v = rest := ih fun q hq => h q (List.mem_cons_of_mem _ hq)
    rcases p with ⟨p1, p2⟩
    simp only [updateKey, List.map_cons] at hrest ⊢
    rw [hrest]
    by_cases hp : p1 = k
    · have hv : p2 = v := h (p1, p2) (List.mem_cons_self _ _) hp
      subst hp
      subst hv
      simp
    · simp [hp]

theorem mem_updateKey_ne {l : List (K × V)} {k : K} {v : V} {p : K × V}
    (h : p.1 ≠ k) : p ∈ updateKey l k v ↔ p ∈ l := by
  induction l with
  | nil => simp [updateKey]
  | cons q rest ih =>
    simp only [updateKey, List.map_cons, List.mem_cons] at ih ⊢
    by_cases hq : q.1 = k
    · have h1 : p ≠ (k, v) := fun hh => h (by rw [hh])
      have h2 : p ≠ q := fun hh => h (hh ▸ hq)
      simp only [hq, if_pos]
      constructor
      · intro hh
        rcases hh with hh | hh
        · exact absurd hh h1
        · exact Or.inr (ih.mp hh)
      · intro hh
        rcases hh with hh | hh
        · exact absurd hh h2
        · exact Or.inr (ih.mpr hh)
    · simp only [hq, if_neg, if_false]
      rw [ih]

theorem updateKey_map_fst {l : List (K × V)} {k : K} {v : V} :
    (updateKey l k v).map Prod.fst = l.map Prod.fst := by
  induction l with
  | nil => rfl
  | cons p rest ih =>
    simp only [updateKey, List.map_cons] at ih ⊢
    rw [ih]
    by_cases hp : p.1 = k
    · simp [hp]
    · simp [hp]

theorem nodup_lookup_unique {l : List (K × V)} {k : K} {w : V}
    (hnd : (l.map Prod.fst).Nodup) (h : lookupKey l k = some w) :
    ∀ p ∈ l, p.1 = k → p.2 = w := by
  induction l with
  | nil => simp
  | cons p rest ih =>
    simp only [List.map_cons, List.nodup_cons] at hnd
    intro q hq hqk
    by_cases hp : p.1 = k
    · simp only [lookupKey, hp, if_pos] at h
      injection h with h
      rcases List.mem_cons.mp hq with hh | hh
      · rw [hh, ← h]
      · exfalso
        apply hnd.1
        rw [hp, ← hqk]
        exact List.mem_map_of_mem _ hh
    · simp only [lookupKey, hp, if_neg, if_false] at h
      rcases List.mem_cons.mp hq with hh | hh
      · exact absurd (hh ▸ hqk) hp
      · exact ih hnd.2 h q hh hqk


theorem mem_updateKey_elim {l : List (K × V)} {k : K} {v : V} {p : K × V}
    (h : p ∈ updateKey l k v) : p ∈ l ∨ p = (k, v) := by
  simp only [updateKey, List.mem_map] at h
  obtain ⟨q, hq, heq⟩ := h
  by_cases hqk : q.1 = k
  · right
    rw [← heq]
    simp [hqk]
  · left
    rw [← heq]
    simp only [hqk, if_neg, if_false]
    exact hq

end AssocList

/-! ## Changed-recently set lemmas -/

theorem mem_insertRecently_ne {cr : List ScopeClaimKey} {j k : ScopeClaimKey}
    (h : k ≠ j) : k ∈ insertRecently cr j ↔ k ∈ cr := by
  unfold insertRecently
  split_ifs <;> simp [h]

theorem mem_removeRecently_ne {cr : List ScopeClaimKey} {j k : ScopeClaimKey}
    (h : k ≠ j) : k ∈ removeRecently cr j ↔ k ∈ cr := by
  simp [removeRecently, List.mem_filter, h]

theorem mem_insertRecently_self {cr : List ScopeClaimKey} {j : ScopeClaimKey} :
    j ∈ insertRecently cr j := by
  unfold insertRecently
  split_ifs with h
  · exact h
  · exact List.mem_cons_self _ _

theorem not_mem_removeRecently_self {cr : List ScopeClaimKey} {j : ScopeClaimKey} :
    j ∉ removeRecently cr j := by
  simp [removeRecently, List.mem_filter]

/-! ## Locality of one merge-loop step -/

section StepLocality

variable (game_id : GameId) (realm_id : RealmId)

theorem mergeStep_global_untouched (st : MergeLoop) (q : ScopeClaimKey × ClaimValue)
    (h : q.1.scope ≠ ClaimScope.Global) :
    (mergeStep game_id realm_id st q).set.global = st.set.global := by
  rcases q with ⟨⟨sc, ck⟩, v⟩
  cases sc
  · exact absurd rfl h
  · simp only [mergeStep]
    cases lookupKey st.set.game ⟨game_id, ck⟩ <;> rfl
  · simp only [mergeStep]
    cases lookupKey st.set.realm ⟨realm_id, ⟨game_id, ck⟩⟩ <;> rfl

theorem mergeStep_game_untouched (st : MergeLoop) (q : ScopeClaimKey × ClaimValue)
    (h : q.1.scope ≠ ClaimScope.Game) :
    (mergeStep game_id realm_id st q).set.game = st.set.game := by
  rcases q with ⟨⟨sc, ck⟩, v⟩
  cases sc
  · simp only [mergeStep]
    cases lookupKey st.set.global ck <;> rfl
  · exact absurd rfl h
  · simp only [mergeStep]
    cases lookupKey st.set.realm ⟨realm_id, ⟨game_id, ck⟩⟩ <;> rfl

theorem mergeStep_realm_untouched (st : MergeLoop) (q : ScopeClaimKey × ClaimValue)
    (h : q.1.scope ≠ ClaimScope.Realm) :
    (mergeStep game_id realm_id st q).set.realm = st.set.realm := by
  rcases q with ⟨⟨sc, ck⟩, v⟩
  cases sc
  · simp only [mergeStep]
    cases lookupKey st.set.global ck <;> rfl
  · simp only [mergeStep]
    cases lookupKey st.set.game ⟨game_id, ck⟩ <;> rfl
  · exact absurd rfl h

theorem mergeStep_lookup_global (st : MergeLoop) (q : ScopeClaimKey × ClaimValue)
    (ck : ClaimKey) (h : ¬(q.1.scope = ClaimScope.Global ∧ q.1.key = ck)) :
    lookupKey (mergeStep game_id realm_id st q).set.global ck =
      lookupKey st.set.global ck := by
  rcases q with ⟨⟨sc, k⟩, v⟩
  cases sc
  case Global =>
    have hk : k ≠ ck := fun hh => h ⟨rfl, hh⟩
    simp only [mergeStep]
    cases hl : lookupKey st.set.global k
    · exact lookupKey_append_single_ne (fun hh => hk hh.symm)
    · exact lookupKey_updateKey_ne (fun hh => hk hh.symm)
  case Game =>
    rw [mergeStep_global_untouched game_id realm_id st _ (by simp)]
  case Realm =>
    rw [mergeStep_global_untouched game_id realm_id st _ (by simp)]

theorem mergeStep_lookup_game (st : MergeLoop) (q : ScopeClaimKey × ClaimValue)
    (gk : GameClaimKey)
    (h : ¬(q.1.scope = ClaimScope.Game ∧ (⟨game_id, q.1.key⟩ : GameClaimKey) = gk)) :
    lookupKey (mergeStep game_id realm_id st q).set.game gk =
      lookupKey st.set.game gk := by
  rcases q with ⟨⟨sc, k⟩, v⟩
  cases sc
  case Game =>
    have hk : (⟨game_id, k⟩ : GameClaimKey) ≠ gk := fun hh => h ⟨rfl, hh⟩
    simp only [mergeStep]
    cases hl : lookupKey st.set.game ⟨game_id, k⟩
    · exact lookupKey_append_single_ne (fun hh => hk hh.symm)
    · exact lookupKey_updateKey_ne (fun hh => hk hh.symm)
  case Global =>
    rw [mergeStep_game_untouched game_id realm_id st _ (by simp)]
  case Realm =>
    rw [mergeStep_game_untouched game_id realm_id st _ (by simp)]

theorem mergeStep_lookup_realm (st : MergeLoop) (q : ScopeClaimKey × ClaimValue)
    (rk : RealmClaimKey)
    (h : ¬(q.1.scope = ClaimScope.Realm
        ∧ (⟨realm_id, ⟨game_id, q.1.key⟩⟩ : RealmClaimKey) = rk)) :
    lookupKey (mergeStep game_id realm_id st q).set.realm rk =
      lookupKey st.set.realm rk := by
  rcases q with ⟨⟨sc, k⟩, v⟩
  cases sc
  case Realm =>
    have hk : (⟨realm_id, ⟨game_id, k⟩⟩ : RealmClaimKey) ≠ rk := fun hh => h ⟨rfl, hh⟩
    simp only [mergeStep]
    cases hl : lookupKey st.set.realm ⟨realm_id, ⟨game_id, k⟩⟩
    · exact lookupKey_append_single_ne (fun hh => hk hh.symm)
    · exact lookupKey_updateKey_ne (fun hh => hk hh.symm)
  case Global =>
    rw [mergeStep_realm_untouched game_id realm_id st _ (by simp)]
  case Game =>
    rw [mergeStep_realm_untouched game_id realm_id st _ (by simp)]

theorem mergeStep_cr_frame (st : MergeLoop) (q : ScopeClaimKey × ClaimValue)
    (k : ScopeClaimKey) (h : k ≠ q.1) :
    (k ∈ (mergeStep game_id realm_id st q).changed_recently ↔
      k ∈ st.changed_recently) := by
  rcases q with ⟨⟨sc, ck⟩, v⟩
  cases sc <;> simp only [mergeStep]
  case Global =>
    cases hl : lookupKey st.set.global ck
    · rfl
    · dsimp only
      split_ifs <;> first
        | exact mem_removeRecently_ne h
        | exact mem_insertRecently_ne h
  case Game =>
    cases hl : lookupKey st.set.game ⟨game_id, ck⟩
    · rfl
    · dsimp only
      split_ifs <;> first
        | exact mem_removeRecently_ne h
        | exact mem_insertRecently_ne h
  case Realm =>
    cases hl : lookupKey st.set.realm ⟨realm_id, ⟨game_id, ck⟩⟩
    · rfl
    · dsimp only
      split_ifs <;> first
        | exact mem_removeRecently_ne h
        | exact mem_insertRecently_ne h

end StepLocality

/-- `expiredBefore` only reads the expiration field. -/
theorem ClaimValue.expiredBefore_congr {a b : ClaimValue} (now : UnixMillis)
    (h : a.date_expires = b.date_expires) :
    a.expiredBefore now = b.expiredBefore now := by
  unfold ClaimValue.expiredBefore
  rw [h]

section StepMore

variable (game_id : GameId) (realm_id : RealmId)

theorem mergeStep_mem_global (st : MergeLoop) (q : ScopeClaimKey × ClaimValue)
    {p : ClaimKey × ClaimValue} (h : p ∈ (mergeStep game_id realm_id st q).set.global) :
    p ∈ st.set.global ∨ (q.1.scope = ClaimScope.Global ∧ p.1 = q.1.key) := by
  rcases q with ⟨⟨sc, ck⟩, v⟩
  cases sc
  case Global =>
    simp only [mergeStep] at h
    cases hl : lookupKey st.set.global ck <;> simp only [hl] at h
    · rcases List.mem_append.mp h with hh | hh
      · exact Or.inl hh
      · right
        simp at hh
        exact ⟨rfl, by rw [hh]⟩
    · rcases mem_updateKey_elim h with hh | hh
      · exact Or.inl hh
      · right
        exact ⟨rfl, by rw [hh]⟩
  case Game =>
    rw [mergeStep_global_untouched game_id realm_id st _ (by simp)] at h
    exact Or.inl h
  case Realm =>
    rw [mergeStep_global_untouched game_id realm_id st _ (by simp)] at h
    exact Or.inl h

theorem mergeStep_mem_game (st : MergeLoop) (q : ScopeClaimKey × ClaimValue)
    {p : GameClaimKey × ClaimValue} (h : p ∈ (mergeStep game_id realm_id st q).set.game) :
    p ∈ st.set.game
      ∨ (q.1.scope = ClaimScope.Game ∧ p.1 = ⟨game_id, q.1.key⟩) := by
  rcases q with ⟨⟨sc, ck⟩, v⟩
  cases sc
  case Game =>
    simp only [mergeStep] at h
    cases hl : lookupKey st.set.game ⟨game_id, ck⟩ <;> simp only [hl] at h
    · rcases List.mem_append.mp h with hh | hh
      · exact Or.inl hh
      · right
        simp at hh
        exact ⟨rfl, by rw [hh]⟩
    · rcases mem_updateKey_elim h with hh | hh
      · exact Or.inl hh
      · right
        exact ⟨rfl, by rw [hh]⟩
  case Global =>
    rw [mergeStep_game_untouched game_id realm_id st _ (by simp)] at h
    exact Or.inl h
  case Realm =>
    rw [mergeStep_game_untouched game_id realm_id st _ (by simp)] at h
    exact Or.inl h

theorem mergeStep_mem_realm (st : MergeLoop) (q : ScopeClaimKey × ClaimValue)
    {p : RealmClaimKey × ClaimValue} (h : p ∈ (mergeStep game_id realm_id st q).set.realm) :
    p ∈ st.set.realm
      ∨ (q.1.scope = ClaimScope.Realm ∧ p.1 = ⟨realm_id, ⟨game_id, q.1.key⟩⟩) := by
  rcases q with ⟨⟨sc, ck⟩, v⟩
  cases sc
  case Realm =>
    simp only [mergeStep] at h
    cases hl : lookupKey st.set.realm ⟨realm_id, ⟨game_id, ck⟩⟩ <;> simp only [hl] at h
    · rcases List.mem_append.mp h with hh | hh
      · exact Or.inl hh
      · right
        simp at hh
        exact ⟨rfl, by rw [hh]⟩
    · rcases mem_updateKey_elim h with hh | hh
      · exact Or.inl hh
      · right
        exact ⟨rfl, by rw [hh]⟩
  case Global =>
    rw [mergeStep_realm_untouched game_id realm_id st _ (by simp)] at h
    exact Or.inl h
  case Game =>
    rw [mergeStep_realm_untouched game_id realm_id st _ (by simp)] at h
    exact Or.inl h

end StepMore

section StepOwn

variable (game_id : GameId) (realm_id : RealmId)

theorem mergeStep_nonexpired_global (st : MergeLoop) (q : ScopeClaimKey × ClaimValue)
    (now : UnixMillis)
    (hst : ∀ p ∈ st.set.global, p.2.expiredBefore now = false)
    (hq : q.2.expiredBefore now = false) :
    ∀ p ∈ (mergeStep game_id realm_id st q).set.global, p.2.expiredBefore now = false := by
  intro p hp
  rcases q with ⟨⟨sc, ck⟩, v⟩
  cases sc
  case Global =>
    simp only [mergeStep] at hp
    cases hl : lookupKey st.set.global ck <;> simp only [hl] at hp
    · rcases List.mem_append.mp hp with hh | hh
      · exact hst p hh
      · simp at hh
        rw [hh]
        exact hq
    · rcases mem_updateKey_elim hp with hh | hh
      · exact hst p hh
      · rw [hh]
        rcases ClaimValue.merge_expires_origin _ v ck.aggregation with ho | ho
        · rw [ClaimValue.expiredBefore_congr now ho]
          exact hst _ (lookupKey_mem hl)
        · rw [ClaimValue.expiredBefore_congr now ho]
          exact hq
  case Game =>
    rw [mergeStep_global_untouched game_id realm_id st _ (by simp)] at hp
    exact hst p hp
  case Realm =>
    rw [mergeStep_global_untouched game_id realm_id st _ (by simp)] at hp
    exact hst p hp

theorem mergeStep_nonexpired_game (st : MergeLoop) (q : ScopeClaimKey × ClaimValue)
    (now : UnixMillis)
    (hst : ∀ p ∈ st.set.game, p.2.expiredBefore now = false)
    (hq : q.2.expiredBefore now = false) :
    ∀ p ∈ (mergeStep game_id realm_id st q).set.game, p.2.expiredBefore now = false := by
  intro p hp
  rcases q with ⟨⟨sc, ck⟩, v⟩
  cases sc
  case Game =>
    simp only [mergeStep] at hp
    cases hl : lookupKey st.set.game ⟨game_id, ck⟩ <;> simp only [hl] at hp
    · rcases List.mem_append.mp hp with hh | hh
      · exact hst p hh
      · simp at hh
        rw [hh]
        exact hq
    · rcases mem_updateKey_elim hp with hh | hh
      · exact hst p hh
      · rw [hh]
        rcases ClaimValue.merge_expires_origin _ v ck.aggregation with ho | ho
        · rw [ClaimValue.expiredBefore_congr now ho]
          exact hst _ (lookupKey_mem hl)
        · rw [ClaimValue.expiredBefore_congr now ho]
          exact hq
  case Global =>
    rw [mergeStep_game_untouched game_id realm_id st _ (by simp)] at hp
    exact hst p hp
  case Realm =>
    rw [mergeStep_game_untouched game_id realm_id st _ (by simp)] at hp
    exact hst p hp

theorem mergeStep_nonexpired_realm (st : MergeLoop) (q : ScopeClaimKey × ClaimValue)
    (now : UnixMillis)
    (hst : ∀ p ∈ st.set.realm, p.2.expiredBefore now = false)
    (hq : q.2.expiredBefore now = false) :
    ∀ p ∈ (mergeStep game_id realm_id st q).set.realm, p.2.expiredBefore now = false := by
  intro p hp
  rcases q with ⟨⟨sc, ck⟩, v⟩
  cases sc
  case Realm =>
    simp only [mergeStep] at hp
    cases hl : lookupKey st.set.realm ⟨realm_id, ⟨game_id, ck⟩⟩ <;> simp only [hl] at hp
    · rcases List.mem_append.mp hp with hh | hh
      · exact hst p hh
      · simp at hh
        rw [hh]
        exact hq
    · rcases mem_updateKey_elim hp with hh | hh
      · exact hst p hh
      · rw [hh]
        rcases ClaimValue.merge_expires_origin _ v ck.aggregation with ho | ho
        · rw [ClaimValue.expiredBefore_congr now ho]
          exact hst _ (lookupKey_mem hl)
        · rw [ClaimValue.expiredBefore_congr now ho]
          exact hq
  case Global =>
    rw [mergeStep_realm_untouched game_id realm_id st _ (by simp)] at hp
    exact hst p hp
  case Game =>
    rw [mergeStep_realm_untouched game_id realm_id st _ (by simp)] at hp
    exact hst p hp

theorem mergeStep_nodup_global (st : MergeLoop) (q : ScopeClaimKey × ClaimValue)
    (h : (st.set.global.map Prod.fst).Nodup) :
    ((mergeStep game_id realm_id st q).set.global.map Prod.fst).Nodup := by
  rcases q with ⟨⟨sc, ck⟩, v⟩
  cases sc
  case Global =>
    simp only [mergeStep]
    cases hl : lookupKey st.set.global ck <;> dsimp only
    · have hnot : ck ∉ st.set.global.map Prod.fst := lookupKey_eq_none_iff.mp hl
      simp [List.nodup_append, h, hnot]
    · rw [updateKey_map_fst]
      exact h
  case Game =>
    rw [mergeStep_global_untouched game_id realm_id st _ (by simp)]
    exact h
  case Realm =>
    rw [mergeStep_global_untouched game_id realm_id st _ (by simp)]
    exact h

theorem mergeStep_nodup_game (st : MergeLoop) (q : ScopeClaimKey × ClaimValue)
    (h : (st.set.game.map Prod.fst).Nodup) :
    ((mergeStep game_id realm_id st q).set.game.map Prod.fst).Nodup := by
  rcases q with ⟨⟨sc, ck⟩, v⟩
  cases sc
  case Game =>
    simp only [mergeStep]
    cases hl : lookupKey st.set.game ⟨game_id, ck⟩ <;> dsimp only
    · have hnot : (⟨game_id, ck⟩ : GameClaimKey) ∉ st.set.game.map Prod.fst :=
        lookupKey_eq_none_iff.mp hl
      simp [List.nodup_append, h, hnot]
    · rw [updateKey_map_fst]
      exact h
  case Global =>
    rw [mergeStep_game_untouched game_id realm_id st _ (by simp)]
    exact h
  case Realm =>
    rw [mergeStep_game_untouched game_id realm_id st _ (by simp)]
    exact h

theorem mergeStep_nodup_realm (st : MergeLoop) (q : ScopeClaimKey × ClaimValue)
    (h : (st.set.realm.map Prod.fst).Nodup) :
    ((mergeStep game_id realm_id st q).set.realm.map Prod.fst).Nodup := by
  rcases q with ⟨⟨sc, ck⟩, v⟩
  cases sc
  case Realm =>
    simp only [mergeStep]
    cases hl : lookupKey st.set.realm ⟨realm_id, ⟨game_id, ck⟩⟩ <;> dsimp only
    · have hnot : (⟨realm_id, ⟨game_id, ck⟩⟩ : RealmClaimKey) ∉ st.set.realm.map Prod.fst :=
        lookupKey_eq_none_iff.mp hl
      simp [List.nodup_append, h, hnot]
    · rw [updateKey_map_fst]
      exact h
  case Global =>
    rw [mergeStep_realm_untouched game_id realm_id st _ (by simp)]
    exact h
  case Game =>
    rw [mergeStep_realm_untouched game_id realm_id st _ (by simp)]
    exact h

end StepOwn

section StepOwnKey

variable (game_id : GameId) (realm_id : RealmId)

theorem mergeStep_lookup_own_global (st : MergeLoop) (q : ScopeClaimKey × ClaimValue)
    (hsc : q.1.scope = ClaimScope.Global) :
    lookupKey (mergeStep game_id realm_id st q).set.global q.1.key =
      some (match lookupKey st.set.global q.1.key with
            | none => q.2
            | some w => (w.merge q.2 q.1.key.aggregation).1) := by
  rcases q with ⟨⟨sc, ck⟩, v⟩
  cases sc <;> cases hsc
  simp only [mergeStep]
  cases hl : lookupKey st.set.global ck <;> dsimp only
  · rw [lookupKey_append_of_none hl]
    simp [lookupKey]
  · exact lookupKey_updateKey_some hl

theorem mergeStep_lookup_own_game (st : MergeLoop) (q : ScopeClaimKey × ClaimValue)
    (hsc : q.1.scope = ClaimScope.Game) :
    lookupKey (mergeStep game_id realm_id st q).set.game ⟨game_id, q.1.key⟩ =
      some (match lookupKey st.set.game ⟨game_id, q.1.key⟩ with
            | none => q.2
            | some w => (w.merge q.2 q.1.key.aggregation).1) := by
  rcases q with ⟨⟨sc, ck⟩, v⟩
  cases sc <;> cases hsc
  simp only [mergeStep]
  cases hl : lookupKey st.set.game ⟨game_id, ck⟩ <;> dsimp only
  · rw [lookupKey_append_of_none hl]
    simp [lookupKey]
  · exact lookupKey_updateKey_some hl

theorem mergeStep_lookup_own_realm (st : MergeLoop) (q : ScopeClaimKey × ClaimValue)
    (hsc : q.1.scope = ClaimScope.Realm) :
    lookupKey (mergeStep game_id realm_id st q).set.realm ⟨realm_id, ⟨game_id, q.1.key⟩⟩ =
      some (match lookupKey st.set.realm ⟨realm_id, ⟨game_id, q.1.key⟩⟩ with
            | none => q.2
            | some w => (w.merge q.2 q.1.key.aggregation).1) := by
  rcases q with ⟨⟨sc, ck⟩, v⟩
  cases sc <;> cases hsc
  simp only [mergeStep]
  cases hl : lookupKey st.set.realm ⟨realm_id, ⟨game_id, ck⟩⟩ <;> dsimp only
  · rw [lookupKey_append_of_none hl]
    simp [lookupKey]
  · exact lookupKey_updateKey_some hl

theorem mergeStep_cr_own_global (st : MergeLoop) (q : ScopeClaimKey × ClaimValue)
    (hsc : q.1.scope = ClaimScope.Global) :
    (q.1 ∈ (mergeStep game_id realm_id st q).changed_recently ↔
      match lookupKey st.set.global q.1.key with
      | none => q.1 ∈ st.changed_recently
      | some w => ¬(w.merge q.2 q.1.key.aggregation).1 = q.2) := by
  rcases q with ⟨⟨sc, ck⟩, v⟩
  cases sc <;> cases hsc
  simp only [mergeStep]
  cases hl : lookupKey st.set.global ck <;> dsimp only
  · exact Iff.rfl
  · split_ifs with he
    · simp [he, not_mem_removeRecently_self]
    · simp [he, mem_insertRecently_self]

theorem mergeStep_cr_own_game (st : MergeLoop) (q : ScopeClaimKey × ClaimValue)
    (hsc : q.1.scope = ClaimScope.Game) :
    (q.1 ∈ (mergeStep game_id realm_id st q).changed_recently ↔
      match lookupKey st.set.game ⟨game_id, q.1.key⟩ with
      | none => q.1 ∈ st.changed_recently
      | some w => ¬(w.merge q.2 q.1.key.aggregation).1 = q.2) := by
  rcases q with ⟨⟨sc, ck⟩, v⟩
  cases sc <;> cases hsc
  simp only [mergeStep]
  cases hl : lookupKey st.set.game ⟨game_id, ck⟩ <;> dsimp only
  · exact Iff.rfl
  · split_ifs with he
    · simp [he, not_mem_removeRecently_self]
    · simp [he, mem_insertRecently_self]

theorem mergeStep_cr_own_realm (st : MergeLoop) (q : ScopeClaimKey × ClaimValue)
    (hsc : q.1.scope = ClaimScope.Realm) :
    (q.1 ∈ (mergeStep game_id realm_id st q).changed_recently ↔
      match lookupKey st.set.realm ⟨realm_id, ⟨game_id, q.1.key⟩⟩ with
      | none => q.1 ∈ st.changed_recently
      | some w => ¬(w.merge q.2 q.1.key.aggregation).1 = q.2) := by
  rcases q with ⟨⟨sc, ck⟩, v⟩
  cases sc <;> cases hsc
  simp only [mergeStep]
  cases hl : lookupKey st.set.realm ⟨realm_id, ⟨game_id, ck⟩⟩ <;> dsimp only
  · exact Iff.rfl
  · split_ifs with he
    · simp [he, not_mem_removeRecently_self]
    · simp [he, mem_insertRecently_self]

theorem mergeStep_set_of_fixed (st : MergeLoop) (q : ScopeClaimKey × ClaimValue)
    (hgm : (st.set.game.map Prod.fst).Nodup)
    (hgl : (st.set.global.map Prod.fst).Nodup)
    (hrl : (st.set.realm.map Prod.fst).Nodup)
    (hfx : EntryFixed game_id realm_id st.set q) :
    (mergeStep game_id realm_id st q).set = st.set := by
  rcases q with ⟨⟨sc, ck⟩, v⟩
  cases sc <;> simp only [EntryFixed] at hfx <;> obtain ⟨w, hl, hw⟩ := hfx <;>
    simp only [mergeStep, hl] <;> rw [hw] <;>
    rw [updateKey_eq_self (nodup_lookup_unique (by assumption) hl)]

end StepOwnKey

/-! ## Loop-level lemmas -/

theorem scopeClaimKey_eq {a b : ScopeClaimKey} (h1 : a.scope = b.scope)
    (h2 : a.key = b.key) : a = b := by
  cases a
  cases b
  cases h1
  cases h2
  rfl

section StepMemFrame

variable (game_id : GameId) (realm_id : RealmId)

theorem mergeStep_memiff_global (st : MergeLoop) (q : ScopeClaimKey × ClaimValue)
    {p : ClaimKey × ClaimValue}
    (h : ¬(q.1.scope = ClaimScope.Global ∧ p.1 = q.1.key)) :
    (p ∈ (mergeStep game_id realm_id st q).set.global ↔ p ∈ st.set.global) := by
  rcases q with ⟨⟨sc, ck⟩, v⟩
  cases sc
  case Global =>
    have hk : p.1 ≠ ck := fun hh => h ⟨rfl, hh⟩
    simp only [mergeStep]
    cases hl : lookupKey st.set.global ck <;> dsimp only
    · rw [List.mem_append]
      simp only [List.mem_singleton]
      constructor
      · intro hh
        rcases hh with hh | hh
        · exact hh
        · exact absurd (by rw [hh]) hk
      · exact Or.inl
    · exact mem_updateKey_ne hk
  case Game =>
    rw [mergeStep_global_untouched game_id realm_id st _ (by simp)]
  case Realm =>
    rw [mergeStep_global_untouched game_id realm_id st _ (by simp)]

theorem mergeStep_memiff_game (st : MergeLoop) (q : ScopeClaimKey × ClaimValue)
    {p : GameClaimKey × ClaimValue}
    (h : ¬(q.1.scope = ClaimScope.Game ∧ p.1 = ⟨game_id, q.1.key⟩)) :
    (p ∈ (mergeStep game_id realm_id st q).set.game ↔ p ∈ st.set.game) := by
  rcases q with ⟨⟨sc, ck⟩, v⟩
  cases sc
  case Game =>
    have hk : p.1 ≠ ⟨game_id, ck⟩ := fun hh => h ⟨rfl, hh⟩
    simp only [mergeStep]
    cases hl : lookupKey st.set.game ⟨game_id, ck⟩ <;> dsimp only
    · rw [List.mem_append]
      simp only [List.mem_singleton]
      constructor
      · intro hh
        rcases hh with hh | hh
        · exact hh
        · exact absurd (by rw [hh]) hk
      · exact Or.inl
    · exact mem_updateKey_ne hk
  case Global =>
    rw [mergeStep_game_untouched game_id realm_id st _ (by simp)]
  case Realm =>
    rw [mergeStep_game_untouched game_id realm_id st _ (by simp)]

theorem mergeStep_memiff_realm (st : MergeLoop) (q : ScopeClaimKey × ClaimValue)
    {p : RealmClaimKey × ClaimValue}
    (h : ¬(q.1.scope = ClaimScope.Realm ∧ p.1 = ⟨realm_id, ⟨game_id, q.1.key⟩⟩)) :
    (p ∈ (mergeStep game_id realm_id st q).set.realm ↔ p ∈ st.set.realm) := by
  rcases q with ⟨⟨sc, ck⟩, v⟩
  cases sc
  case Realm =>
    have hk : p.1 ≠ ⟨realm_id, ⟨game_id, ck⟩⟩ := fun hh => h ⟨rfl, hh⟩
    simp only [mergeStep]
    cases hl : lookupKey st.set.realm ⟨realm_id, ⟨game_id, ck⟩⟩ <;> dsimp only
    · rw [List.mem_append]
      simp only [List.mem_singleton]
      constructor
      · intro hh
        rcases hh with hh | hh
        · exact hh
        · exact absurd (by rw [hh]) hk
      · exact Or.inl
    · exact mem_updateKey_ne hk
  case Global =>
    rw [mergeStep_realm_untouched game_id realm_id st _ (by simp)]
  case Game =>
    rw [mergeStep_realm_untouched game_id realm_id st _ (by simp)]

end StepMemFrame

section LoopLemmas

variable (game_id : GameId) (realm_id : RealmId)

theorem mergeLoop_nil (st : MergeLoop) : mergeLoop game_id realm_id st [] = st := rfl

theorem mergeLoop_cons (st : MergeLoop) (q : ScopeClaimKey × ClaimValue)
    (l : List (ScopeClaimKey × ClaimValue)) :
    mergeLoop game_id realm_id st (q :: l) =
      mergeLoop game_id realm_id (mergeStep game_id realm_id st q) l := rfl

theorem mergeLoop_lookup_global (l : List (ScopeClaimKey × ClaimValue)) (st : MergeLoop)
    (ck : ClaimKey)
    (h : ∀ q ∈ l, ¬(q.1.scope = ClaimScope.Global ∧ q.1.key = ck)) :
    lookupKey (mergeLoop game_id realm_id st l).set.global ck =
      lookupKey st.set.global ck := by
  induction l generalizing st with
  | nil => rfl
  | cons q' rest ih =>
    rw [mergeLoop_cons, ih _ fun q hq => h q (List.mem_cons_of_mem _ hq)]
    exact mergeStep_lookup_global game_id realm_id st q' ck (h q' (List.mem_cons_self _ _))

theorem mergeLoop_lookup_game (l : List (ScopeClaimKey × ClaimValue)) (st : MergeLoop)
    (gk : GameClaimKey)
    (h : ∀ q ∈ l, ¬(q.1.scope = ClaimScope.Game
        ∧ (⟨game_id, q.1.key⟩ : GameClaimKey) = gk)) :
    lookupKey (mergeLoop game_id realm_id st l).set.game gk =
      lookupKey st.set.game gk := by
  induction l generalizing st with
  | nil => rfl
  | cons q' rest ih =>
    rw [mergeLoop_cons, ih _ fun q hq => h q (List.mem_cons_of_mem _ hq)]
    exact mergeStep_lookup_game game_id realm_id st q' gk (h q' (List.mem_cons_self _ _))

theorem mergeLoop_lookup_realm (l : List (ScopeClaimKey × ClaimValue)) (st : MergeLoop)
    (rk : RealmClaimKey)
    (h : ∀ q ∈ l, ¬(q.1.scope = ClaimScope.Realm
        ∧ (⟨realm_id, ⟨game_id, q.1.key⟩⟩ : RealmClaimKey) = rk)) :
    lookupKey (mergeLoop game_id realm_id st l).set.realm rk =
      lookupKey st.set.realm rk := by
  induction l generalizing st with
  | nil => rfl
  | cons q' rest ih =>
    rw [mergeLoop_cons, ih _ fun q hq => h q (List.mem_cons_of_mem _ hq)]
    exact mergeStep_lookup_realm game_id realm_id st q' rk (h q' (List.mem_cons_self _ _))

theorem mergeLoop_memiff_global (l : List (ScopeClaimKey × ClaimValue)) (st : MergeLoop)
    {p : ClaimKey × ClaimValue}
    (h : ∀ q ∈ l, ¬(q.1.scope = ClaimScope.Global ∧ p.1 = q.1.key)) :
    (p ∈ (mergeLoop game_id realm_id st l).set.global ↔ p ∈ st.set.global) := by
  induction l generalizing st with
  | nil => exact Iff.rfl
  | cons q' rest ih =>
    rw [mergeLoop_cons, ih _ fun q hq => h q (List.mem_cons_of_mem _ hq)]
    exact mergeStep_memiff_global game_id realm_id st q' (h q' (List.mem_cons_self _ _))

theorem mergeLoop_memiff_game (l : List (ScopeClaimKey × ClaimValue)) (st : MergeLoop)
    {p : GameClaimKey × ClaimValue}
    (h : ∀ q ∈ l, ¬(q.1.scope = ClaimScope.Game ∧ p.1 = ⟨game_id, q.1.key⟩)) :
    (p ∈ (mergeLoop game_id realm_id st l).set.game ↔ p ∈ st.set.game) := by
  induction l generalizing st with
  | nil => exact Iff.rfl
  | cons q' rest ih =>
    rw [mergeLoop_cons, ih _ fun q hq => h q (List.mem_cons_of_mem _ hq)]
    exact mergeStep_memiff_game game_id realm_id st q' (h q' (List.mem_cons_self _ _))

theorem mergeLoop_memiff_realm (l : List (ScopeClaimKey × ClaimValue)) (st : MergeLoop)
    {p : RealmClaimKey × ClaimValue}
    (h : ∀ q ∈ l, ¬(q.1.scope = ClaimScope.Realm
        ∧ p.1 = ⟨realm_id, ⟨game_id, q.1.key⟩⟩)) :
    (p ∈ (mergeLoop game_id realm_id st l).set.realm ↔ p ∈ st.set.realm) := by
  induction l generalizing st with
  | nil => exact Iff.rfl
  | cons q' rest ih =>
    rw [mergeLoop_cons, ih _ fun q hq => h q (List.mem_cons_of_mem _ hq)]
    exact mergeStep_memiff_realm game_id realm_id st q' (h q' (List.mem_cons_self _ _))

theorem mergeLoop_cr_frame (l : List (ScopeClaimKey × ClaimValue)) (st : MergeLoop)
    (k : ScopeClaimKey) (h : ∀ q ∈ l, k ≠ q.1) :
    (k ∈ (mergeLoop game_id realm_id st l).changed_recently ↔
      k ∈ st.changed_recently) := by
  induction l generalizing st with
  | nil => exact Iff.rfl
  | cons q' rest ih =>
    rw [mergeLoop_cons, ih _ fun q hq => h q (List.mem_cons_of_mem _ hq)]
    exact mergeStep_cr_frame game_id realm_id st q' k (h q' (List.mem_cons_self _ _))

theorem mergeLoop_mem_origin_global (l : List (ScopeClaimKey × ClaimValue))
    (st : MergeLoop) {p : ClaimKey × ClaimValue}
    (h : p ∈ (mergeLoop game_id realm_id st l).set.global) :
    p ∈ st.set.global ∨ ∃ q ∈ l, q.1.scope = ClaimScope.Global ∧ p.1 = q.1.key := by
  induction l generalizing st with
  | nil => exact Or.inl h
  | cons q' rest ih =>
    rw [mergeLoop_cons] at h
    rcases ih _ h with hh | ⟨q, hq, hsc, hk⟩
    · rcases mergeStep_mem_global game_id realm_id st q' hh with hh' | hh'
      · exact Or.inl hh'
      · exact Or.inr ⟨q', List.mem_cons_self _ _, hh'⟩
    · exact Or.inr ⟨q, List.mem_cons_of_mem _ hq, hsc, hk⟩

theorem mergeLoop_mem_origin_game (l : List (ScopeClaimKey × ClaimValue))
    (st : MergeLoop) {p : GameClaimKey × ClaimValue}
    (h : p ∈ (mergeLoop game_id realm_id st l).set.game) :
    p ∈ st.set.game
      ∨ ∃ q ∈ l, q.1.scope = ClaimScope.Game ∧ p.1 = ⟨game_id, q.1.key⟩ := by
  induction l generalizing st with
  | nil => exact Or.inl h
  | cons q' rest ih =>
    rw [mergeLoop_cons] at h
    rcases ih _ h with hh | ⟨q, hq, hsc, hk⟩
    · rcases mergeStep_mem_game game_id realm_id st q' hh with hh' | hh'
      · exact Or.inl hh'
      · exact Or.inr ⟨q', List.mem_cons_self _ _, hh'⟩
    · exact Or.inr ⟨q, List.mem_cons_of_mem _ hq, hsc, hk⟩

theorem mergeLoop_mem_origin_realm (l : List (ScopeClaimKey × ClaimValue))
    (st : MergeLoop) {p : RealmClaimKey × ClaimValue}
    (h : p ∈ (mergeLoop game_id realm_id st l).set.realm) :
    p ∈ st.set.realm
      ∨ ∃ q ∈ l, q.1.scope = ClaimScope.Realm
          ∧ p.1 = ⟨realm_id, ⟨game_id, q.1.key⟩⟩ := by
  induction l generalizing st with
  | nil => exact Or.inl h
  | cons q' rest ih =>
    rw [mergeLoop_cons] at h
    rcases ih _ h with hh | ⟨q, hq, hsc, hk⟩
    · rcases mergeStep_mem_realm game_id realm_id st q' hh with hh' | hh'
      · exact Or.inl hh'
      · exact Or.inr ⟨q', List.mem_cons_self _ _, hh'⟩
    · exact Or.inr ⟨q, List.mem_cons_of_mem _ hq, hsc, hk⟩

theorem mergeLoop_nonexpired (l : List (ScopeClaimKey × ClaimValue)) (st : MergeLoop)
    (now : UnixMillis)
    (hgm : ∀ p ∈ st.set.game, p.2.expiredBefore now = false)
    (hgl : ∀ p ∈ st.set.global, p.2.expiredBefore now = false)
    (hrl : ∀ p ∈ st.set.realm, p.2.expiredBefore now = false)
    (hin : ∀ q ∈ l, q.2.expiredBefore now = false) :
    (∀ p ∈ (mergeLoop game_id realm_id st l).set.game, p.2.expiredBefore now = false)
    ∧ (∀ p ∈ (mergeLoop game_id realm_id st l).set.global, p.2.expiredBefore now = false)
    ∧ (∀ p ∈ (mergeLoop game_id realm_id st l).set.realm, p.2.expiredBefore now = false) := by
  induction l generalizing st with
  | nil => exact ⟨hgm, hgl, hrl⟩
  | cons q' rest ih =>
    rw [mergeLoop_cons]
    have hq' : q'.2.expiredBefore now = false := hin q' (List.mem_cons_self _ _)
    exact ih _
      (mergeStep_nonexpired_game game_id realm_id st q' now hgm hq')
      (mergeStep_nonexpired_global game_id realm_id st q' now hgl hq')
      (mergeStep_nonexpired_realm game_id realm_id st q' now hrl hq')
      (fun q hq => hin q (List.mem_cons_of_mem _ hq))

theorem mergeLoop_nodup (l : List (ScopeClaimKey × ClaimValue)) (st : MergeLoop)
    (hgm : (st.set.game.map Prod.fst).Nodup)
    (hgl : (st.set.global.map Prod.fst).Nodup)
    (hrl : (st.set.realm.map Prod.fst).Nodup) :
    ((mergeLoop game_id realm_id st l).set.game.map Prod.fst).Nodup
    ∧ ((mergeLoop game_id realm_id st l).set.global.map Prod.fst).Nodup
    ∧ ((mergeLoop game_id realm_id st l).set.realm.map Prod.fst).Nodup := by
  induction l generalizing st with
  | nil => exact ⟨hgm, hgl, hrl⟩
  | cons q' rest ih =>
    rw [mergeLoop_cons]
    exact ih _
      (mergeStep_nodup_game game_id realm_id st q' hgm)
      (mergeStep_nodup_global game_id realm_id st q' hgl)
      (mergeStep_nodup_realm game_id realm_id st q' hrl)

theorem mergeLoop_fix (l : List (ScopeClaimKey × ClaimValue)) (st : MergeLoop)
    (hgm : (st.set.game.map Prod.fst).Nodup)
    (hgl : (st.set.global.map Prod.fst).Nodup)
    (hrl : (st.set.realm.map Prod.fst).Nodup)
    (h : ∀ q ∈ l, EntryFixed game_id realm_id st.set q) :
    (mergeLoop game_id realm_id st l).set = st.set := by
  induction l generalizing st with
  | nil => rfl
  | cons q' rest ih =>
    rw [mergeLoop_cons]
    have hset : (mergeStep game_id realm_id st q').set = st.set :=
      mergeStep_set_of_fixed game_id realm_id st q' hgm hgl hrl
        (h q' (List.mem_cons_self _ _))
    rw [ih _ (by rw [hset]; exact hgm) (by rw [hset]; exact hgl) (by rw [hset]; exact hrl)
      (fun q hq => by rw [hset]; exact h q (List.mem_cons_of_mem _ hq))]
    exact hset

end LoopLemmas

section LoopOwnKey

variable (game_id : GameId) (realm_id : RealmId)

theorem mergeLoop_entry_global (l : List (ScopeClaimKey × ClaimValue)) (st : MergeLoop)
    (q : ScopeClaimKey × ClaimValue) (hnd : (l.map Prod.fst).Nodup) (hq : q ∈ l)
    (hsc : q.1.scope = ClaimScope.Global) :
    lookupKey (mergeLoop game_id realm_id st l).set.global q.1.key =
      some (match lookupKey st.set.global q.1.key with
            | none => q.2
            | some w => (w.merge q.2 q.1.key.aggregation).1) := by
  induction l generalizing st with
  | nil => cases hq
  | cons q' rest ih =>
    simp only [List.map_cons, List.nodup_cons] at hnd
    rw [mergeLoop_cons]
    rcases List.mem_cons.mp hq with hh | hh
    · subst hh
      rw [mergeLoop_lookup_global game_id realm_id rest _ _ ?frame]
      · exact mergeStep_lookup_own_global game_id realm_id st q hsc
      case frame =>
        intro q'' hq'' hcon
        apply hnd.1
        have : q''.1 = q.1 := scopeClaimKey_eq (by rw [hcon.1, hsc]) hcon.2
        rw [← this]
        exact List.mem_map_of_mem _ hq''
    · have hne : ¬(q'.1.scope = ClaimScope.Global ∧ q'.1.key = q.1.key) := by
        intro hcon
        apply hnd.1
        have : q'.1 = q.1 := scopeClaimKey_eq (by rw [hcon.1, hsc]) hcon.2
        rw [this]
        exact List.mem_map_of_mem _ hh
      rw [ih _ hnd.2 hh, mergeStep_lookup_global game_id realm_id st q' _ hne]

theorem mergeLoop_entry_game (l : List (ScopeClaimKey × ClaimValue)) (st : MergeLoop)
    (q : ScopeClaimKey × ClaimValue) (hnd : (l.map Prod.fst).Nodup) (hq : q ∈ l)
    (hsc : q.1.scope = ClaimScope.Game) :
    lookupKey (mergeLoop game_id realm_id st l).set.game ⟨game_id, q.1.key⟩ =
      some (match lookupKey st.set.game ⟨game_id, q.1.key⟩ with
            | none => q.2
            | some w => (w.merge q.2 q.1.key.aggregation).1) := by
  induction l generalizing st with
  | nil => cases hq
  | cons q' rest ih =>
    simp only [List.map_cons, List.nodup_cons] at hnd
    rw [mergeLoop_cons]
    rcases List.mem_cons.mp hq with hh | hh
    · subst hh
      rw [mergeLoop_lookup_game game_id realm_id rest _ _ ?frame]
      · exact mergeStep_lookup_own_game game_id realm_id st q hsc
      case frame =>
        intro q'' hq'' hcon
        apply hnd.1
        have hk : q''.1.key = q.1.key := by
          have := hcon.2
          simp only [GameClaimKey.mk.injEq] at this
          exact this.2
        have : q''.1 = q.1 := scopeClaimKey_eq (by rw [hcon.1, hsc]) hk
        rw [← this]
        exact List.mem_map_of_mem _ hq''
    · have hne : ¬(q'.1.scope = ClaimScope.Game
          ∧ (⟨game_id, q'.1.key⟩ : GameClaimKey) = ⟨game_id, q.1.key⟩) := by
        intro hcon
        apply hnd.1
        have hk : q'.1.key = q.1.key := by
          have := hcon.2
          simp only [GameClaimKey.mk.injEq] at this
          exact this.2
        have : q'.1 = q.1 := scopeClaimKey_eq (by rw [hcon.1, hsc]) hk
        rw [this]
        exact List.mem_map_of_mem _ hh
      rw [ih _ hnd.2 hh, mergeStep_lookup_game game_id realm_id st q' _ hne]

theorem mergeLoop_entry_realm (l : List (ScopeClaimKey × ClaimValue)) (st : MergeLoop)
    (q : ScopeClaimKey × ClaimValue) (hnd : (l.map Prod.fst).Nodup) (hq : q ∈ l)
    (hsc : q.1.scope = ClaimScope.Realm) :
    lookupKey (mergeLoop game_id realm_id st l).set.realm
        ⟨realm_id, ⟨game_id, q.1.key⟩⟩ =
      some (match lookupKey st.set.realm ⟨realm_id, ⟨game_id, q.1.key⟩⟩ with
            | none => q.2
            | some w => (w.merge q.2 q.1.key.aggregation).1) := by
  induction l generalizing st with
  | nil => cases hq
  | cons q' rest ih =>
    simp only [List.map_cons, List.nodup_cons] at hnd
    rw [mergeLoop_cons]
    rcases List.mem_cons.mp hq with hh | hh
    · subst hh
      rw [mergeLoop_lookup_realm game_id realm_id rest _ _ ?frame]
      · exact mergeStep_lookup_own_realm game_id realm_id st q hsc
      case frame =>
        intro q'' hq'' hcon
        apply hnd.1
        have hk : q''.1.key = q.1.key := by
          have := hcon.2
          simp only [RealmClaimKey.mk.injEq, GameClaimKey.mk.injEq] at this
          exact this.2.2
        have : q''.1 = q.1 := scopeClaimKey_eq (by rw [hcon.1, hsc]) hk
        rw [← this]
        exact List.mem_map_of_mem _ hq''
    · have hne : ¬(q'.1.scope = ClaimScope.Realm
          ∧ (⟨realm_id, ⟨game_id, q'.1.key⟩⟩ : RealmClaimKey)
              = ⟨realm_id, ⟨game_id, q.1.key⟩⟩) := by
        intro hcon
        apply hnd.1
        have hk : q'.1.key = q.1.key := by
          have := hcon.2
          simp only [RealmClaimKey.mk.injEq, GameClaimKey.mk.injEq] at this
          exact this.2.2
        have : q'.1 = q.1 := scopeClaimKey_eq (by rw [hcon.1, hsc]) hk
        rw [this]
        exact List.mem_map_of_mem _ hh
      rw [ih _ hnd.2 hh, mergeStep_lookup_realm game_id realm_id st q' _ hne]

theorem mergeLoop_cr_global (l : List (ScopeClaimKey × ClaimValue)) (st : MergeLoop)
    (q : ScopeClaimKey × ClaimValue) (hnd : (l.map Prod.fst).Nodup) (hq : q ∈ l)
    (hsc : q.1.scope = ClaimScope.Global) :
    (q.1 ∈ (mergeLoop game_id realm_id st l).changed_recently ↔
      match lookupKey st.set.global q.1.key with
      | none => q.1 ∈ st.changed_recently
      | some w => ¬(w.merge q.2 q.1.key.aggregation).1 = q.2) := by
  induction l generalizing st with
  | nil => cases hq
  | cons q' rest ih =>
    simp only [List.map_cons, List.nodup_cons] at hnd
    rw [mergeLoop_cons]
    rcases List.mem_cons.mp hq with hh | hh
    · subst hh
      rw [mergeLoop_cr_frame game_id realm_id rest _ _ ?frame]
      · exact mergeStep_cr_own_global game_id realm_id st q hsc
      case frame =>
        intro q'' hq'' hcon
        apply hnd.1
        rw [hcon]
        exact List.mem_map_of_mem _ hq''
    · have hne1 : q.1 ≠ q'.1 := by
        intro hcon
        apply hnd.1
        rw [← hcon]
        exact List.mem_map_of_mem _ hh
      have hne : ¬(q'.1.scope = ClaimScope.Global ∧ q'.1.key = q.1.key) := by
        intro hcon
        exact hne1 (scopeClaimKey_eq (by rw [hcon.1, hsc]) hcon.2).symm
      rw [ih _ hnd.2 hh, mergeStep_lookup_global game_id realm_id st q' _ hne,
        mergeStep_cr_frame game_id realm_id st q' _ hne1]

theorem mergeLoop_cr_game (l : List (ScopeClaimKey × ClaimValue)) (st : MergeLoop)
    (q : ScopeClaimKey × ClaimValue) (hnd : (l.map Prod.fst).Nodup) (hq : q ∈ l)
    (hsc : q.1.scope = ClaimScope.Game) :
    (q.1 ∈ (mergeLoop game_id realm_id st l).changed_recently ↔
      match lookupKey st.set.game ⟨game_id, q.1.key⟩ with
      | none => q.1 ∈ st.changed_recently
      | some w => ¬(w.merge q.2 q.1.key.aggregation).1 = q.2) := by
  induction l generalizing st with
  | nil => cases hq
  | cons q' rest ih =>
    simp only [List.map_cons, List.nodup_cons] at hnd
    rw [mergeLoop_cons]
    rcases List.mem_cons.mp hq with hh | hh
    · subst hh
      rw [mergeLoop_cr_frame game_id realm_id rest _ _ ?frame]
      · exact mergeStep_cr_own_game game_id realm_id st q hsc
      case frame =>
        intro q'' hq'' hcon
        apply hnd.1
        rw [hcon]
        exact List.mem_map_of_mem _ hq''
    · have hne1 : q.1 ≠ q'.1 := by
        intro hcon
        apply hnd.1
        rw [← hcon]
        exact List.mem_map_of_mem _ hh
      have hne : ¬(q'.1.scope = ClaimScope.Game
          ∧ (⟨game_id, q'.1.key⟩ : GameClaimKey) = ⟨game_id, q.1.key⟩) := by
        intro hcon
        apply hne1
        have hk : q'.1.key = q.1.key := by
          have := hcon.2
          simp only [GameClaimKey.mk.injEq] at this
          exact this.2
        exact (scopeClaimKey_eq (by rw [hcon.1, hsc]) hk).symm
      rw [ih _ hnd.2 hh, mergeStep_lookup_game game_id realm_id st q' _ hne,
        mergeStep_cr_frame game_id realm_id st q' _ hne1]

theorem mergeLoop_cr_realm (l : List (ScopeClaimKey × ClaimValue)) (st : MergeLoop)
    (q : ScopeClaimKey × ClaimValue) (hnd : (l.map Prod.fst).Nodup) (hq : q ∈ l)
    (hsc : q.1.scope = ClaimScope.Realm) :
    (q.1 ∈ (mergeLoop game_id realm_id st l).changed_recently ↔
      match lookupKey st.set.realm ⟨realm_id, ⟨game_id, q.1.key⟩⟩ with
      | none => q.1 ∈ st.changed_recently
      | some w => ¬(w.merge q.2 q.1.key.aggregation).1 = q.2) := by
  induction l generalizing st with
  | nil => cases hq
  | cons q' rest ih =>
    simp only [List.map_cons, List.nodup_cons] at hnd
    rw [mergeLoop_cons]
    rcases List.mem_cons.mp hq with hh | hh
    · subst hh
      rw [mergeLoop_cr_frame game_id realm_id rest _ _ ?frame]
      · exact mergeStep_cr_own_realm game_id realm_id st q hsc
      case frame =>
        intro q'' hq'' hcon
        apply hnd.1
        rw [hcon]
        exact List.mem_map_of_mem _ hq''
    · have hne1 : q.1 ≠ q'.1 := by
        intro hcon
        apply hnd.1
        rw [← hcon]
        exact List.mem_map_of_mem _ hh
      have hne : ¬(q'.1.scope = ClaimScope.Realm
          ∧ (⟨realm_id, ⟨game_id, q'.1.key⟩⟩ : RealmClaimKey)
              = ⟨realm_id, ⟨game_id, q.1.key⟩⟩) := by
        intro hcon
        apply hne1
        have hk : q'.1.key = q.1.key := by
          have := hcon.2
          simp only [RealmClaimKey.mk.injEq, GameClaimKey.mk.injEq] at this
          exact this.2.2
        exact (scopeClaimKey_eq (by rw [hcon.1, hsc]) hk).symm
      rw [ih _ hnd.2 hh, mergeStep_lookup_realm game_id realm_id st q' _ hne,
        mergeStep_cr_frame game_id realm_id st q' _ hne1]

end LoopOwnKey

/-! ## Filtered-subset and sweep lemmas -/

theorem mem_map_fst_iff {A B : Type} {l : List (A × B)} {k : A} :
    k ∈ l.map Prod.fst ↔ ∃ v, (k, v) ∈ l := by
  constructor
  · intro h
    obtain ⟨p, hp, he⟩ := List.mem_map.mp h
    exact ⟨p.2, by rw [← he]; exact hp⟩
  · rintro ⟨v, hv⟩
    exact List.mem_map.mpr ⟨(k, v), hv, rfl⟩

theorem mem_filtered_claims {S : ClaimSet} {f : ScopeClaimKey → ClaimValue → Bool}
    {d : Option UnixMillis} {G : GameId} {R : RealmId} {p : ScopeClaimKey × ClaimValue} :
    p ∈ (S.filtered_subset f d G R).claims ↔
      ((∃ x ∈ S.global, f ⟨ClaimScope.Global, x.1⟩ x.2 = true
          ∧ p = (⟨ClaimScope.Global, x.1⟩, x.2))
      ∨ (∃ x ∈ S.game, x.1.game_id = G ∧ f ⟨ClaimScope.Game, x.1.key⟩ x.2 = true
          ∧ p = (⟨ClaimScope.Game, x.1.key⟩, x.2))
      ∨ (∃ x ∈ S.realm, (x.1.key.game_id = G ∧ x.1.realm_id = R)
          ∧ f ⟨ClaimScope.Realm, x.1.key.key⟩ x.2 = true
          ∧ p = (⟨ClaimScope.Realm, x.1.key.key⟩, x.2))) := by
  simp only [ClaimSet.filtered_subset, List.mem_append, List.mem_filterMap]
  constructor
  · intro h
    rcases h with (h | h) | h
    · obtain ⟨x, hx, he⟩ := h
      split_ifs at he with hf
      injection he with he
      exact Or.inl ⟨x, hx, hf, he.symm⟩
    · obtain ⟨x, hx, he⟩ := h
      split_ifs at he with hc hf
      injection he with he
      exact Or.inr (Or.inl ⟨x, hx, hc, hf, he.symm⟩)
    · obtain ⟨x, hx, he⟩ := h
      split_ifs at he with hc hf
      injection he with he
      exact Or.inr (Or.inr ⟨x, hx, hc, hf, he.symm⟩)
  · intro h
    rcases h with ⟨x, hx, hf, he⟩ | ⟨x, hx, hc, hf, he⟩ | ⟨x, hx, hc, hf, he⟩
    · exact Or.inl (Or.inl ⟨x, hx, by rw [hf, he]; rfl⟩)
    · exact Or.inl (Or.inr ⟨x, hx, by rw [if_pos hc, hf, he]; rfl⟩)
    · exact Or.inr ⟨x, hx, by rw [if_pos hc, hf, he]; rfl⟩

theorem sweep_nonexpired (S : ClaimSet) (now : UnixMillis) :
    (∀ p ∈ (S.sweep now).game, p.2.expiredBefore now = false)
    ∧ (∀ p ∈ (S.sweep now).global, p.2.expiredBefore now = false)
    ∧ (∀ p ∈ (S.sweep now).realm, p.2.expiredBefore now = false) := by
  refine ⟨?_, ?_, ?_⟩ <;> intro p hp <;>
    simpa using (List.mem_filter.mp hp).2

theorem sweep_eq_self (T : ClaimSet) (now : UnixMillis)
    (hgm : ∀ p ∈ T.game, p.2.expiredBefore now = false)
    (hgl : ∀ p ∈ T.global, p.2.expiredBefore now = false)
    (hrl : ∀ p ∈ T.realm, p.2.expiredBefore now = false) :
    T.sweep now = T := by
  unfold ClaimSet.sweep
  have f1 : T.game.filter (fun p => !(p.2.expiredBefore now)) = T.game :=
    List.filter_eq_self.mpr fun p hp => by rw [hgm p hp]; rfl
  have f2 : T.global.filter (fun p => !(p.2.expiredBefore now)) = T.global :=
    List.filter_eq_self.mpr fun p hp => by rw [hgl p hp]; rfl
  have f3 : T.realm.filter (fun p => !(p.2.expiredBefore now)) = T.realm :=
    List.filter_eq_self.mpr fun p hp => by rw [hrl p hp]; rfl
  rw [f1, f2, f3]

theorem sweep_nodup (S : ClaimSet) (now : UnixMillis)
    (hgm : (S.game.map Prod.fst).Nodup)
    (hgl : (S.global.map Prod.fst).Nodup)
    (hrl : (S.realm.map Prod.fst).Nodup) :
    ((S.sweep now).game.map Prod.fst).Nodup
    ∧ ((S.sweep now).global.map Prod.fst).Nodup
    ∧ ((S.sweep now).realm.map Prod.fst).Nodup := by
  refine ⟨?_, ?_, ?_⟩
  · exact hgm.sublist ((List.filter_sublist _).map _)
  · exact hgl.sublist ((List.filter_sublist _).map _)
  · exact hrl.sublist ((List.filter_sublist _).map _)

/-! ## Convergence of repeated merging -/

theorem merge_set_def (s : ClaimSet) (new : ClaimSubset) (G : GameId) (R : RealmId)
    (now : UnixMillis) :
    (s.merge new G R now).set =
      (mergeLoop G R (mergeInit s new G R now) new.claims).set := rfl

theorem merge_replyKeys_def (s : ClaimSet) (new : ClaimSubset) (G : GameId) (R : RealmId)
    (now : UnixMillis) :
    (s.merge new G R now).replyKeys =
      ((mergeLoop G R (mergeInit s new G R now) new.claims).set.filtered_subset
        (fun k _ => decide
          (k ∈ (mergeLoop G R (mergeInit s new G R now) new.claims).changed_recently))
        (some new.date_synchronized) G R).claims.map Prod.fst := rfl

theorem mergeInit_set (s : ClaimSet) (new : ClaimSubset) (G : GameId) (R : RealmId)
    (now : UnixMillis) : (mergeInit s new G R now).set = s.sweep now := rfl

theorem mergeInit_cr (s : ClaimSet) (new : ClaimSubset) (G : GameId) (R : RealmId)
    (now : UnixMillis) :
    (mergeInit s new G R now).changed_recently =
      ((s.sweep now).filtered_subset (fun _ v => decide (new.cutoff < v.date_updated))
        none G R).claims.map (fun p => p.1) := rfl

theorem merge_twice_core (G : GameId) (R : RealmId) (S : ClaimSet) (n : ClaimSubset)
    (now : UnixMillis)
    (hn : (n.claims.map Prod.fst).Nodup)
    (hgm : (S.game.map Prod.fst).Nodup)
    (hgl : (S.global.map Prod.fst).Nodup)
    (hrl : (S.realm.map Prod.fst).Nodup)
    (hexp : ∀ q ∈ n.claims, q.2.expiredBefore now = false) :
    ((S.merge n G R now).set.merge n G R now).set = (S.merge n G R now).set
    ∧ ∀ k ∈ ((S.merge n G R now).set.merge n G R now).replyKeys,
        k ∈ (S.merge n G R now).replyKeys := by
  -- notation
  have hswn := sweep_nonexpired S now
  have hswd := sweep_nodup S now hgm hgl hrl
  -- facts about the first merge result
  have h1 := mergeLoop_nonexpired G R n.claims (mergeInit S n G R now) now
    hswn.1 hswn.2.1 hswn.2.2 hexp
  have hnd1 := mergeLoop_nodup G R n.claims (mergeInit S n G R now)
    hswd.1 hswd.2.1 hswd.2.2
  have hsw2 : (mergeLoop G R (mergeInit S n G R now) n.claims).set.sweep now
      = (mergeLoop G R (mergeInit S n G R now) n.claims).set :=
    sweep_eq_self _ now h1.1 h1.2.1 h1.2.2
  have hinit2set : (mergeInit (mergeLoop G R (mergeInit S n G R now) n.claims).set
      n G R now).set = (mergeLoop G R (mergeInit S n G R now) n.claims).set := by
    rw [mergeInit_set]
    exact hsw2
  -- every incoming claim is a fixpoint of the state after the first merge
  have hfix : ∀ q ∈ n.claims,
      EntryFixed G R (mergeInit (mergeLoop G R (mergeInit S n G R now) n.claims).set
        n G R now).set q := by
    intro q hq
    rcases q with ⟨⟨sc, ck⟩, v⟩
    cases sc
    case Global =>
      have hent := mergeLoop_entry_global G R n.claims (mergeInit S n G R now)
        (⟨ClaimScope.Global, ck⟩, v) hn hq rfl
      refine ⟨_, by rw [hinit2set]; exact hent, ?_⟩
      cases hl0 : lookupKey (mergeInit S n G R now).set.global ck
      · exact ClaimValue.merge_self v ck.aggregation
      · exact ClaimValue.merge_idem _ v ck.aggregation
    case Game =>
      have hent := mergeLoop_entry_game G R n.claims (mergeInit S n G R now)
        (⟨ClaimScope.Game, ck⟩, v) hn hq rfl
      refine ⟨_, by rw [hinit2set]; exact hent, ?_⟩
      cases hl0 : lookupKey (mergeInit S n G R now).set.game ⟨G, ck⟩
      · exact ClaimValue.merge_self v ck.aggregation
      · exact ClaimValue.merge_idem _ v ck.aggregation
    case Realm =>
      have hent := mergeLoop_entry_realm G R n.claims (mergeInit S n G R now)
        (⟨ClaimScope.Realm, ck⟩, v) hn hq rfl
      refine ⟨_, by rw [hinit2set]; exact hent, ?_⟩
      cases hl0 : lookupKey (mergeInit S n G R now).set.realm ⟨R, ⟨G, ck⟩⟩
      · exact ClaimValue.merge_self v ck.aggregation
      · exact ClaimValue.merge_idem _ v ck.aggregation
  -- the second merge leaves the state unchanged
  have hset2 : ((S.merge n G R now).set.merge n G R now).set = (S.merge n G R now).set := by
    rw [merge_set_def S n G R now, merge_set_def]
    rw [mergeLoop_fix G R n.claims _
      (by rw [hinit2set]; exact hnd1.1)
      (by rw [hinit2set]; exact hnd1.2.1)
      (by rw [hinit2set]; exact hnd1.2.2) hfix]
    exact hinit2set
  refine ⟨hset2, ?_⟩
  -- the second reply's keys are among the first reply's keys
  have hcr : ∀ k, k ∈ (mergeLoop G R (mergeInit
        (mergeLoop G R (mergeInit S n G R now) n.claims).set n G R now)
        n.claims).changed_recently →
      k ∈ (mergeLoop G R (mergeInit S n G R now) n.claims).changed_recently := by
    intro k hk2
    by_cases hkin : ∃ q ∈ n.claims, q.1 = k
    · obtain ⟨q, hq, rfl⟩ := hkin
      cases hsc : q.1.scope
      · have hcr2 := mergeLoop_cr_global G R n.claims
          (mergeInit (mergeLoop G R (mergeInit S n G R now) n.claims).set n G R now) q hn hq hsc
        rw [hinit2set] at hcr2
        have hent := mergeLoop_entry_global G R n.claims (mergeInit S n G R now) q hn hq hsc
        have hcr1 := mergeLoop_cr_global G R n.claims (mergeInit S n G R now) q hn hq hsc
        cases hl0 : lookupKey (mergeInit S n G R now).set.global q.1.key <;>
          rw [hl0] at hent hcr1
        · rw [hent] at hcr2
          exact absurd (ClaimValue.merge_self q.2 q.1.key.aggregation) (hcr2.mp hk2)
        · rw [hent] at hcr2
          dsimp only at hcr2 hcr1
          rw [ClaimValue.merge_idem _ q.2 q.1.key.aggregation] at hcr2
          exact hcr1.mpr (hcr2.mp hk2)
      · have hcr2 := mergeLoop_cr_game G R n.claims
          (mergeInit (mergeLoop G R (mergeInit S n G R now) n.claims).set n G R now) q hn hq hsc
        rw [hinit2set] at hcr2
        have hent := mergeLoop_entry_game G R n.claims (mergeInit S n G R now) q hn hq hsc
        have hcr1 := mergeLoop_cr_game G R n.claims (mergeInit S n G R now) q hn hq hsc
        cases hl0 : lookupKey (mergeInit S n G R now).set.game ⟨G, q.1.key⟩ <;>
          rw [hl0] at hent hcr1
        · rw [hent] at hcr2
          exact absurd (ClaimValue.merge_self q.2 q.1.key.aggregation) (hcr2.mp hk2)
        · rw [hent] at hcr2
          dsimp only at hcr2 hcr1
          rw [ClaimValue.merge_idem _ q.2 q.1.key.aggregation] at hcr2
          exact hcr1.mpr (hcr2.mp hk2)
      · have hcr2 := mergeLoop_cr_realm G R n.claims
          (mergeInit (mergeLoop G R (mergeInit S n G R now) n.claims).set n G R now) q hn hq hsc
        rw [hinit2set] at hcr2
        have hent := mergeLoop_entry_realm G R n.claims (mergeInit S n G R now) q hn hq hsc
        have hcr1 := mergeLoop_cr_realm G R n.claims (mergeInit S n G R now) q hn hq hsc
        cases hl0 : lookupKey (mergeInit S n G R now).set.realm ⟨R, ⟨G, q.1.key⟩⟩ <;>
          rw [hl0] at hent hcr1
        · rw [hent] at hcr2
          exact absurd (ClaimValue.merge_self q.2 q.1.key.aggregation) (hcr2.mp hk2)
        · rw [hent] at hcr2
          dsimp only at hcr2 hcr1
          rw [ClaimValue.merge_idem _ q.2 q.1.key.aggregation] at hcr2
          exact hcr1.mpr (hcr2.mp hk2)
    · have hfr : ∀ q ∈ n.claims, k ≠ q.1 := by
        intro q hq hh
        exact hkin ⟨q, hq, hh.symm⟩
      have h2 := (mergeLoop_cr_frame G R n.claims _ k hfr).mp hk2
      rw [mergeInit_cr, hsw2] at h2
      refine (mergeLoop_cr_frame G R n.claims _ k hfr).mpr ?_
      rw [mergeInit_cr]
      obtain ⟨v, hv⟩ := mem_map_fst_iff.mp h2
      rcases mem_filtered_claims.mp hv with ⟨x, hx, hf, he⟩ | ⟨x, hx, hc, hf, he⟩
        | ⟨x, hx, hc, hf, he⟩
      · have hxmem : x ∈ (S.sweep now).global := by
          rw [← mergeInit_set S n G R now]
          refine (mergeLoop_memiff_global G R n.claims _ ?_).mp hx
          intro q hq hcon
          apply hfr q hq
          have hkx : k = ⟨ClaimScope.Global, x.1⟩ := congrArg Prod.fst he
          rw [hkx]
          exact (scopeClaimKey_eq (by rw [hcon.1]) (by rw [← hcon.2])).symm
        exact mem_map_fst_iff.mpr ⟨v, mem_filtered_claims.mpr (Or.inl ⟨x, hxmem, hf, he⟩)⟩
      · have hxmem : x ∈ (S.sweep now).game := by
          rw [← mergeInit_set S n G R now]
          refine (mergeLoop_memiff_game G R n.claims _ ?_).mp hx
          intro q hq hcon
          apply hfr q hq
          have hkx : k = ⟨ClaimScope.Game, x.1.key⟩ := congrArg Prod.fst he
          have hqk : q.1.key = x.1.key := by
            have := hcon.2
            rw [this]
          rw [hkx]
          exact (scopeClaimKey_eq (by rw [hcon.1]) (by rw [hqk])).symm
        exact mem_map_fst_iff.mpr
          ⟨v, mem_filtered_claims.mpr (Or.inr (Or.inl ⟨x, hxmem, hc, hf, he⟩))⟩
      · have hxmem : x ∈ (S.sweep now).realm := by
          rw [← mergeInit_set S n G R now]
          refine (mergeLoop_memiff_realm G R n.claims _ ?_).mp hx
          intro q hq hcon
          apply hfr q hq
          have hkx : k = ⟨ClaimScope.Realm, x.1.key.key⟩ := congrArg Prod.fst he
          have hqk : q.1.key = x.1.key.key := by
            have := hcon.2
            rw [this]
          rw [hkx]
          exact (scopeClaimKey_eq (by rw [hcon.1]) (by rw [hqk])).symm
        exact mem_map_fst_iff.mpr
          ⟨v, mem_filtered_claims.mpr (Or.inr (Or.inr ⟨x, hxmem, hc, hf, he⟩))⟩
  -- from changed-recently containment to reply-key containment
  intro k hk
  rw [merge_replyKeys_def] at hk ⊢
  obtain ⟨v, hv⟩ := mem_map_fst_iff.mp hk
  have hstate : (mergeLoop G R (mergeInit
      (S.merge n G R now).set n G R now) n.claims).set
      = (mergeLoop G R (mergeInit S n G R now) n.claims).set := hset2
  rw [hstate] at hv
  rcases mem_filtered_claims.mp hv with ⟨x, hx, hf, he⟩ | ⟨x, hx, hc, hf, he⟩
    | ⟨x, hx, hc, hf, he⟩
  · have hk2 : k ∈ (mergeLoop G R (mergeInit
        (mergeLoop G R (mergeInit S n G R now) n.claims).set n G R now)
        n.claims).changed_recently := of_decide_eq_true (by
      have hkx : k = ⟨ClaimScope.Global, x.1⟩ := congrArg Prod.fst he
      rw [hkx]
      exact hf)
    have hk1 := hcr k hk2
    refine mem_map_fst_iff.mpr ⟨v, mem_filtered_claims.mpr (Or.inl ⟨x, hx, ?_, he⟩)⟩
    have hkx : k = ⟨ClaimScope.Global, x.1⟩ := congrArg Prod.fst he
    rw [← hkx]
    exact decide_eq_true hk1
  · have hk2 : k ∈ (mergeLoop G R (mergeInit
        (mergeLoop G R (mergeInit S n G R now) n.claims).set n G R now)
        n.claims).changed_recently := of_decide_eq_true (by
      have hkx : k = ⟨ClaimScope.Game, x.1.key⟩ := congrArg Prod.fst he
      rw [hkx]
      exact hf)
    have hk1 := hcr k hk2
    refine mem_map_fst_iff.mpr
      ⟨v, mem_filtered_claims.mpr (Or.inr (Or.inl ⟨x, hx, hc, ?_, he⟩))⟩
    have hkx : k = ⟨ClaimScope.Game, x.1.key⟩ := congrArg Prod.fst he
    rw [← hkx]
    exact decide_eq_true hk1
  · have hk2 : k ∈ (mergeLoop G R (mergeInit
        (mergeLoop G R (mergeInit S n G R now) n.claims).set n G R now)
        n.claims).changed_recently := of_decide_eq_true (by
      have hkx : k = ⟨ClaimScope.Realm, x.1.key.key⟩ := congrArg Prod.fst he
      rw [hkx]
      exact hf)
    have hk1 := hcr k hk2
    refine mem_map_fst_iff.mpr
      ⟨v, mem_filtered_claims.mpr (Or.inr (Or.inr ⟨x, hx, hc, ?_, he⟩))⟩
    have hkx : k = ⟨ClaimScope.Realm, x.1.key.key⟩ := congrArg Prod.fst he
    rw [← hkx]
    exact decide_eq_true hk1

/-! ## Claim theorems -/

/-- C2 (code evaluation at the failing input): the canonical rendering of the
RealmClaimKey with realm_id `public/default` and game claim key
`mk48/high_score/Max` is `public/default/mk48/high_score/Max`, but
`split_once_nth(_, '/', 2)` splits at the THIRD slash (Rust `Iterator::nth`
is 0-indexed), producing realm text `public/default/mk48`, so parsing the
canonical rendering fails instead of returning the original key. -/
theorem realmClaimKey_roundtrip_fails :
    RealmClaimKey.toText
        ⟨RealmId.PublicDefault, ⟨⟨"mk48"⟩, ⟨⟨"high_score"⟩, ClaimAggregation.Max⟩⟩⟩
        = "public/default/mk48/high_score/Max"
    ∧ split_once_nth "public/default/mk48/high_score/Max" '/' 2
        = some ("public/default/mk48", "high_score/Max")
    ∧ RealmClaimKey.fromStr "public/default/mk48/high_score/Max" = none :=
  ⟨rfl, rfl, rfl⟩

/-- C4 (counterexample to the claim as stated): merging into an empty
ClaimSet a value that arrives already expired (`date_expires = 600 < now =
700`) leaves that expired value present in the game partition immediately
after the merge returns. -/
theorem expired_incoming_persists_after_merge :
    (ClaimSet.empty.merge
        ⟨[(ScopeClaimKey.high_score, ⟨some 600, 500, 50⟩)], 500⟩
        ⟨"mk48"⟩ RealmId.PublicDefault 700).set.game
      = [(⟨⟨"mk48"⟩, ScopeClaimKey.high_score.key⟩, ⟨some 600, 500, 50⟩)]
    ∧ ClaimValue.expiredBefore ⟨some 600, 500, 50⟩ 700 = true := by decide

/-- C5: merging into an empty ClaimSet a subset containing exactly
`ScopeClaimKey(Game, high_score/Max) -> ClaimValue(100, updated 1000, no
expiration)` with `date_synchronized = 1000` leaves the store containing
exactly `GameClaimKey(G, high_score/Max) -> (100, 1000, none)`, returns
`store_changed = true`, and returns a reply subset with an empty claims
map. -/
theorem merge_scenarioA (now : UnixMillis) (G : GameId) (R : RealmId) :
    ClaimSet.empty.merge ⟨[(ScopeClaimKey.high_score, ⟨none, 1000, 100⟩)], 1000⟩ G R now =
      { set := ⟨[(⟨G, ScopeClaimKey.high_score.key⟩, ⟨none, 1000, 100⟩)], [], []⟩
        reply := some ⟨[], 1000⟩
        changed := true } := by
  simp [ClaimSet.merge, ClaimSet.empty, mergeInit, ClaimSet.sweep, ClaimSet.sweepChanged,
    ClaimSubset.cutoff, mergeLoop, mergeStep, ClaimSet.filtered_subset,
    ClaimSubset.first_updated?, lookupKey, ScopeClaimKey.high_score, ClaimValue.expiredBefore]

/-- C6: when the store holds `(100, 1000, none)` for the Game-scoped
high_score/Max key and a merge supplies `(80, 1200, none)` with
`date_synchronized = 1200`, the stored value stays `(100, 1000, none)`,
`store_changed = false`, and the reply contains exactly that key mapped to
`(100, 1000, none)` with `date_synchronized = 1200`. -/
theorem merge_scenarioB (now : UnixMillis) (G : GameId) (R : RealmId) :
    (⟨[(⟨G, ScopeClaimKey.high_score.key⟩, ⟨none, 1000, 100⟩)], [], []⟩ : ClaimSet).merge
      ⟨[(ScopeClaimKey.high_score, ⟨none, 1200, 80⟩)], 1200⟩ G R now =
    { set := ⟨[(⟨G, ScopeClaimKey.high_score.key⟩, ⟨none, 1000, 100⟩)], [], []⟩
      reply := some ⟨[(ScopeClaimKey.high_score, ⟨none, 1000, 100⟩)], 1200⟩
      changed := false } := by
  simp [ClaimSet.merge, mergeInit, ClaimSet.sweep, ClaimSet.sweepChanged,
    ClaimSubset.cutoff, mergeLoop, mergeStep, ClaimSet.filtered_subset,
    ClaimSubset.first_updated?, lookupKey, ScopeClaimKey.high_score, ClaimValue.expiredBefore,
    ClaimValue.merge, ClaimValue.replaceCond, updateKey, insertRecently, removeRecently]

/-- C7: `ClaimValue::merge` adopts the incoming expiration exactly when
(`replace` or the incoming `date_updated` is not older than the pre-merge
stored one) and the expirations differ; in that case it reports
`changed = true` even when the magnitude comparison rejects the incoming
value, and when `replace` is false the stored magnitude and timestamp are
left unchanged. -/
theorem claimValue_merge_expiration_rule (s v : ClaimValue) (agg : ClaimAggregation) :
    ((s.merge v agg).1.date_expires =
      if ((s.replaceCond v agg || decide (v.date_updated ≥ s.date_updated))
          && decide (s.date_expires ≠ v.date_expires)) = true then v.date_expires
      else s.date_expires)
    ∧ (((s.replaceCond v agg || decide (v.date_updated ≥ s.date_updated))
          && decide (s.date_expires ≠ v.date_expires)) = true → (s.merge v agg).2 = true)
    ∧ (s.replaceCond v agg = false →
        (s.merge v agg).1.value = s.value ∧ (s.merge v agg).1.date_updated = s.date_updated) := by
  unfold ClaimValue.merge
  rcases s with ⟨se, su, sv⟩
  rcases v with ⟨ve, vu, vv⟩
  by_cases hr : ClaimValue.replaceCond ⟨se, su, sv⟩ ⟨ve, vu, vv⟩ agg = true <;>
    simp [hr] <;> split_ifs <;> simp_all

/-- Witness for `claimValue_merge_expiration_rule` at a concrete input: the
stored value (100, updated 5, never expires) and an incoming (80, updated 5,
expires 7) under Max aggregation satisfy its hypotheses. -/
theorem claimValue_merge_expiration_rule_witness :
    ((((⟨none, 5, 100⟩ : ClaimValue).replaceCond ⟨some 7, 5, 80⟩ ClaimAggregation.Max
          || decide ((5 : UnixMillis) ≥ 5))
        && decide ((none : Option UnixMillis) ≠ some 7)) = true)
    ∧ ((⟨none, 5, 100⟩ : ClaimValue).merge ⟨some 7, 5, 80⟩ ClaimAggregation.Max).2 = true
    ∧ ((⟨none, 5, 100⟩ : ClaimValue).merge ⟨some 7, 5, 80⟩ ClaimAggregation.Max).1.value = 100
    ∧ ((⟨none, 5, 100⟩ : ClaimValue).merge
        ⟨some 7, 5, 80⟩ ClaimAggregation.Max).1.date_updated = 5 :=
  ⟨by decide,
    (claimValue_merge_expiration_rule ⟨none, 5, 100⟩ ⟨some 7, 5, 80⟩
        ClaimAggregation.Max).2.1 (by decide),
    ((claimValue_merge_expiration_rule ⟨none, 5, 100⟩ ⟨some 7, 5, 80⟩
        ClaimAggregation.Max).2.2 (by decide)).1,
    ((claimValue_merge_expiration_rule ⟨none, 5, 100⟩ ⟨some 7, 5, 80⟩
        ClaimAggregation.Max).2.2 (by decide)).2⟩

/-- C8: under Max aggregation the stored magnitude never decreases across any
single merge nor across any finite sequence of merges; under Min aggregation
it never increases. -/
theorem claimValue_merge_max_min_monotone (s v : ClaimValue) (vs : List ClaimValue) :
    (s.value ≤ ((s.merge v ClaimAggregation.Max).1).value
      ∧ ((s.merge v ClaimAggregation.Min).1).value ≤ s.value)
    ∧ (s.value ≤ (s.mergeAll vs ClaimAggregation.Max).value
      ∧ (s.mergeAll vs ClaimAggregation.Min).value ≤ s.value) :=
  ⟨⟨ClaimValue.merge_max_le s v, ClaimValue.merge_min_le s v⟩,
    ⟨ClaimValue.mergeAll_max_le s vs, ClaimValue.mergeAll_min_le s vs⟩⟩

/-- C9: `ScopeClaimKey::product(scope, sku_id)` never panics: a `SkuId` wraps
a `NonZeroU64`, whose decimal rendering has at most 20 characters, so the
name `product_<sku>` has at most 28 bytes and fits the `ClaimName` capacity,
making the unwrap inside `ClaimName::new` (modelled by `Option`) succeed. -/
theorem scopeClaimKey_product_isSome (scope : ClaimScope) (sku : SkuId)
    (h1 : 0 < sku.val) (h2 : sku.val < 2 ^ 64) :
    (ScopeClaimKey.product scope sku).isSome = true := by
  have hlen : (Nat.repr sku.val).length ≤ 20 :=
    Nat.repr_length _ 20 (by norm_num) (lt_of_lt_of_le h2 (by norm_num))
  have h8 : ("product_" : String).length = 8 := rfl
  simp [ScopeClaimKey.product, ClaimName.fromStr, String.length_append]
  omega

/-- Witness for `scopeClaimKey_product_isSome` at the concrete SKU 7. -/
theorem scopeClaimKey_product_isSome_witness :
    (0 < (7 : Nat) ∧ (7 : Nat) < 2 ^ 64)
    ∧ (ScopeClaimKey.product ClaimScope.Global ⟨7⟩).isSome = true :=
  ⟨⟨by decide, by norm_num⟩,
    scopeClaimKey_product_isSome ClaimScope.Global ⟨7⟩ (by decide) (by norm_num)⟩

/-- C1 (counterexample to the claim as stated): with the wall clock fixed at
3000, merging the subset `{Game high_score/Max -> (80, updated 2000, expires
500)}` twice into a store holding `(100, updated 1000, no expiration)` does
NOT yield the same ClaimSet both times: the first merge keeps magnitude 100
but adopts the already-expired expiration 500, and the second merge's sweep
then removes that entry and re-inserts the incoming (80, 2000, 500)
verbatim. -/
theorem merge_reapply_state_differs :
    (((⟨[(⟨⟨"mk48"⟩, ⟨⟨"high_score"⟩, ClaimAggregation.Max⟩⟩, ⟨none, 1000, 100⟩)], [], []⟩ :
        ClaimSet).merge
        ⟨[(⟨ClaimScope.Game, ⟨⟨"high_score"⟩, ClaimAggregation.Max⟩⟩, ⟨some 500, 2000, 80⟩)], 2000⟩
        ⟨"mk48"⟩ RealmId.PublicDefault 3000).set.merge
        ⟨[(⟨ClaimScope.Game, ⟨⟨"high_score"⟩, ClaimAggregation.Max⟩⟩, ⟨some 500, 2000, 80⟩)], 2000⟩
        ⟨"mk48"⟩ RealmId.PublicDefault 3000).set ≠
      ((⟨[(⟨⟨"mk48"⟩, ⟨⟨"high_score"⟩, ClaimAggregation.Max⟩⟩, ⟨none, 1000, 100⟩)], [], []⟩ :
        ClaimSet).merge
        ⟨[(⟨ClaimScope.Game, ⟨⟨"high_score"⟩, ClaimAggregation.Max⟩⟩, ⟨some 500, 2000, 80⟩)], 2000⟩
        ⟨"mk48"⟩ RealmId.PublicDefault 3000).set := by decide

/-- C3 (counterexample to the claim as stated): when the store keeps a larger
Max value (100) than the sender's stale 80, the key re-enters the reply on
BOTH the first and the second identical merge — it is echoed on every
redundant merge, not at most once. -/
theorem redundant_merge_reechoes :
    (⟨ClaimScope.Game, ⟨⟨"high_score"⟩, ClaimAggregation.Max⟩⟩ : ScopeClaimKey) ∈
      ((⟨[(⟨⟨"mk48"⟩, ⟨⟨"high_score"⟩, ClaimAggregation.Max⟩⟩, ⟨none, 1000, 100⟩)], [], []⟩ :
        ClaimSet).merge
        ⟨[(⟨ClaimScope.Game, ⟨⟨"high_score"⟩, ClaimAggregation.Max⟩⟩, ⟨none, 1200, 80⟩)], 1200⟩
        ⟨"mk48"⟩ RealmId.PublicDefault 1300).replyKeys ∧
    (⟨ClaimScope.Game, ⟨⟨"high_score"⟩, ClaimAggregation.Max⟩⟩ : ScopeClaimKey) ∈
      (((⟨[(⟨⟨"mk48"⟩, ⟨⟨"high_score"⟩, ClaimAggregation.Max⟩⟩, ⟨none, 1000, 100⟩)], [], []⟩ :
        ClaimSet).merge
        ⟨[(⟨ClaimScope.Game, ⟨⟨"high_score"⟩, ClaimAggregation.Max⟩⟩, ⟨none, 1200, 80⟩)], 1200⟩
        ⟨"mk48"⟩ RealmId.PublicDefault 1300).set.merge
        ⟨[(⟨ClaimScope.Game, ⟨⟨"high_score"⟩, ClaimAggregation.Max⟩⟩, ⟨none, 1200, 80⟩)], 1200⟩
        ⟨"mk48"⟩ RealmId.PublicDefault 1300).replyKeys := by decide

/-- C1 (amended): provided no incoming value carries an expiration already in
the past at merge time, calling `ClaimSet::merge` twice in succession with the
same subset, game, realm and wall-clock sample yields the same resulting
ClaimSet after the first call as after the second, and the key set of the
second call's reply subset is a subset of the first call's reply key set.
(Hypotheses: the incoming subset and the store have unique keys, as `HashMap`
guarantees, and no incoming `date_expires` is earlier than `now`.) -/
theorem merge_reapply_converges (S : ClaimSet) (n : ClaimSubset) (G : GameId)
    (R : RealmId) (now : UnixMillis)
    (hn : (n.claims.map Prod.fst).Nodup)
    (hgm : (S.game.map Prod.fst).Nodup)
    (hgl : (S.global.map Prod.fst).Nodup)
    (hrl : (S.realm.map Prod.fst).Nodup)
    (hexp : ∀ q ∈ n.claims, q.2.expiredBefore now = false) :
    ((S.merge n G R now).set.merge n G R now).set = (S.merge n G R now).set
    ∧ ∀ k ∈ ((S.merge n G R now).set.merge n G R now).replyKeys,
        k ∈ (S.merge n G R now).replyKeys :=
  merge_twice_core G R S n now hn hgm hgl hrl hexp

/-- Witness for `merge_reapply_converges` at the Scenario-B instance. -/
theorem merge_reapply_converges_witness :
    (((⟨[(⟨⟨"mk48"⟩, ⟨⟨"high_score"⟩, ClaimAggregation.Max⟩⟩, ⟨none, 1000, 100⟩)], [], []⟩ :
        ClaimSet).merge
        ⟨[(⟨ClaimScope.Game, ⟨⟨"high_score"⟩, ClaimAggregation.Max⟩⟩, ⟨none, 1200, 80⟩)], 1200⟩
        ⟨"mk48"⟩ RealmId.PublicDefault 1300).set.merge
        ⟨[(⟨ClaimScope.Game, ⟨⟨"high_score"⟩, ClaimAggregation.Max⟩⟩, ⟨none, 1200, 80⟩)], 1200⟩
        ⟨"mk48"⟩ RealmId.PublicDefault 1300).set =
      ((⟨[(⟨⟨"mk48"⟩, ⟨⟨"high_score"⟩, ClaimAggregation.Max⟩⟩, ⟨none, 1000, 100⟩)], [], []⟩ :
        ClaimSet).merge
        ⟨[(⟨ClaimScope.Game, ⟨⟨"high_score"⟩, ClaimAggregation.Max⟩⟩, ⟨none, 1200, 80⟩)], 1200⟩
        ⟨"mk48"⟩ RealmId.PublicDefault 1300).set
    ∧ ∀ k ∈ (((⟨[(⟨⟨"mk48"⟩, ⟨⟨"high_score"⟩, ClaimAggregation.Max⟩⟩, ⟨none, 1000, 100⟩)], [],
          []⟩ : ClaimSet).merge
        ⟨[(⟨ClaimScope.Game, ⟨⟨"high_score"⟩, ClaimAggregation.Max⟩⟩, ⟨none, 1200, 80⟩)], 1200⟩
        ⟨"mk48"⟩ RealmId.PublicDefault 1300).set.merge
        ⟨[(⟨ClaimScope.Game, ⟨⟨"high_score"⟩, ClaimAggregation.Max⟩⟩, ⟨none, 1200, 80⟩)], 1200⟩
        ⟨"mk48"⟩ RealmId.PublicDefault 1300).replyKeys,
        k ∈ ((⟨[(⟨⟨"mk48"⟩, ⟨⟨"high_score"⟩, ClaimAggregation.Max⟩⟩, ⟨none, 1000, 100⟩)], [],
          []⟩ : ClaimSet).merge
        ⟨[(⟨ClaimScope.Game, ⟨⟨"high_score"⟩, ClaimAggregation.Max⟩⟩, ⟨none, 1200, 80⟩)], 1200⟩
        ⟨"mk48"⟩ RealmId.PublicDefault 1300).replyKeys :=
  merge_reapply_converges
    ⟨[(⟨⟨"mk48"⟩, ⟨⟨"high_score"⟩, ClaimAggregation.Max⟩⟩, ⟨none, 1000, 100⟩)], [], []⟩
    ⟨[(⟨ClaimScope.Game, ⟨⟨"high_score"⟩, ClaimAggregation.Max⟩⟩, ⟨none, 1200, 80⟩)], 1200⟩
    ⟨"mk48"⟩ RealmId.PublicDefault 1300
    (by decide) (by decide) (by decide) (by decide) (by decide)

/-- C3 (amended): under repeated application of the same subset (fixed game,
realm and wall clock; unique keys; no already-expired incoming expirations)
the state converges after the first merge — every later merge leaves the
ClaimSet unchanged — and no previously-unseen key ever enters a later reply:
every key in the reply of any merge after the first is already in the first
merge's reply.  (A key whose stored value still differs from the sender's copy
is echoed on every redundant merge, which the counterexample shows; the
original "at most one reply" claim fails.) -/
theorem merge_iterate_converges (S : ClaimSet) (n : ClaimSubset) (G : GameId)
    (R : RealmId) (now : UnixMillis)
    (hn : (n.claims.map Prod.fst).Nodup)
    (hgm : (S.game.map Prod.fst).Nodup)
    (hgl : (S.global.map Prod.fst).Nodup)
    (hrl : (S.realm.map Prod.fst).Nodup)
    (hexp : ∀ q ∈ n.claims, q.2.expiredBefore now = false) :
    (∀ i, 1 ≤ i → S.mergeIter n G R now i = (S.merge n G R now).set)
    ∧ (∀ i, 1 ≤ i →
        ∀ k ∈ ((S.mergeIter n G R now i).merge n G R now).replyKeys,
          k ∈ (S.merge n G R now).replyKeys) := by
  have hcore := merge_twice_core G R S n now hn hgm hgl hrl hexp
  have hiter : ∀ i, 1 ≤ i → S.mergeIter n G R now i = (S.merge n G R now).set := by
    intro i hi
    induction i with
    | zero => cases hi
    | succ j ih =>
      by_cases hj : 1 ≤ j
      · show ((S.mergeIter n G R now j).merge n G R now).set = _
        rw [ih hj]
        exact hcore.1
      · have hj0 : j = 0 := by omega
        subst hj0
        rfl
  refine ⟨hiter, ?_⟩
  intro i hi k hk
  rw [hiter i hi] at hk
  exact hcore.2 k hk

/-- Witness for `merge_iterate_converges` at the Scenario-B instance,
specialized to the third iterate. -/
theorem merge_iterate_converges_witness :
    (⟨[(⟨⟨"mk48"⟩, ⟨⟨"high_score"⟩, ClaimAggregation.Max⟩⟩, ⟨none, 1000, 100⟩)], [], []⟩ :
        ClaimSet).mergeIter
        ⟨[(⟨ClaimScope.Game, ⟨⟨"high_score"⟩, ClaimAggregation.Max⟩⟩, ⟨none, 1200, 80⟩)], 1200⟩
        ⟨"mk48"⟩ RealmId.PublicDefault 1300 3 =
      ((⟨[(⟨⟨"mk48"⟩, ⟨⟨"high_score"⟩, ClaimAggregation.Max⟩⟩, ⟨none, 1000, 100⟩)], [], []⟩ :
        ClaimSet).merge
        ⟨[(⟨ClaimScope.Game, ⟨⟨"high_score"⟩, ClaimAggregation.Max⟩⟩, ⟨none, 1200, 80⟩)], 1200⟩
        ⟨"mk48"⟩ RealmId.PublicDefault 1300).set :=
  (merge_iterate_converges
    ⟨[(⟨⟨"mk48"⟩, ⟨⟨"high_score"⟩, ClaimAggregation.Max⟩⟩, ⟨none, 1000, 100⟩)], [], []⟩
    ⟨[(⟨ClaimScope.Game, ⟨⟨"high_score"⟩, ClaimAggregation.Max⟩⟩, ⟨none, 1200, 80⟩)], 1200⟩
    ⟨"mk48"⟩ RealmId.PublicDefault 1300
    (by decide) (by decide) (by decide) (by decide) (by decide)).1 3 (by decide)

/-- C4 (amended): immediately after `ClaimSet::merge` returns, every claim
value whose `date_expires` is earlier than the `now` sampled at the start of
that merge sits at a key supplied by the incoming subset during that merge;
entries carried over from the pre-merge store are never expired.  (The
original claim — that NO expired value is present, including already-expired
arrivals — fails; see the counterexample.) -/
theorem merge_expired_only_from_incoming (S : ClaimSet) (n : ClaimSubset) (G : GameId)
    (R : RealmId) (now : UnixMillis) :
    (∀ p ∈ (S.merge n G R now).set.global, p.2.expiredBefore now = true →
      ∃ q ∈ n.claims, q.1.scope = ClaimScope.Global ∧ p.1 = q.1.key)
    ∧ (∀ p ∈ (S.merge n G R now).set.game, p.2.expiredBefore now = true →
      ∃ q ∈ n.claims, q.1.scope = ClaimScope.Game ∧ p.1 = ⟨G, q.1.key⟩)
    ∧ (∀ p ∈ (S.merge n G R now).set.realm, p.2.expiredBefore now = true →
      ∃ q ∈ n.claims, q.1.scope = ClaimScope.Realm ∧ p.1 = ⟨R, ⟨G, q.1.key⟩⟩) := by
  have hswn := sweep_nonexpired S now
  refine ⟨?_, ?_, ?_⟩ <;> intro p hp hpe
  · rw [merge_set_def] at hp
    rcases mergeLoop_mem_origin_global G R n.claims _ hp with hh | hh
    · rw [hswn.2.1 p hh] at hpe
      cases hpe
    · exact hh
  · rw [merge_set_def] at hp
    rcases mergeLoop_mem_origin_game G R n.claims _ hp with hh | hh
    · rw [hswn.1 p hh] at hpe
      cases hpe
    · exact hh
  · rw [merge_set_def] at hp
    rcases mergeLoop_mem_origin_realm G R n.claims _ hp with hh | hh
    · rw [hswn.2.2 p hh] at hpe
      cases hpe
    · exact hh

/-- Witness for `merge_expired_only_from_incoming` at the Scenario-C instance:
the already-expired arrival sits at the incoming key. -/
theorem merge_expired_only_from_incoming_witness :
    ((⟨⟨"mk48"⟩, ScopeClaimKey.high_score.key⟩, (⟨some 600, 500, 50⟩ : ClaimValue)) ∈
        (ClaimSet.empty.merge ⟨[(ScopeClaimKey.high_score, ⟨some 600, 500, 50⟩)], 500⟩
          ⟨"mk48"⟩ RealmId.PublicDefault 700).set.game
      ∧ (⟨some 600, 500, 50⟩ : ClaimValue).expiredBefore 700 = true)
    ∧ ∃ q ∈ ([(ScopeClaimKey.high_score, (⟨some 600, 500, 50⟩ : ClaimValue))] :
        List (ScopeClaimKey × ClaimValue)), q.1.scope = ClaimScope.Game
        ∧ (⟨⟨"mk48"⟩, ScopeClaimKey.high_score.key⟩ : GameClaimKey) = ⟨⟨"mk48"⟩, q.1.key⟩ :=
  ⟨⟨by decide, by decide⟩,
    (merge_expired_only_from_incoming ClaimSet.empty
      ⟨[(ScopeClaimKey.high_score, ⟨some 600, 500, 50⟩)], 500⟩
      ⟨"mk48"⟩ RealmId.PublicDefault 700).2.1
      (⟨⟨"mk48"⟩, ScopeClaimKey.high_score.key⟩, ⟨some 600, 500, 50⟩)
      (by decide) (by decide)⟩

/-- C10: `ClaimSet::merge` affects game entries of a game other than `G`, and
realm entries of a realm/game pair other than `(R, G)`, in exactly one way —
removal by the expiration sweep when their expiration precedes `now`; after
the merge, the lookup of such a key equals the lookup in the swept pre-merge
partition (never inserted, never changed).  The reply subset only carries
claims read back from the store's global partition, the partition of game `G`,
or the partition of realm `(R, G)`. -/
theorem merge_frame_property (S : ClaimSet) (n : ClaimSubset) (G : GameId)
    (R : RealmId) (now : UnixMillis) :
    (∀ gk : GameClaimKey, gk.game_id ≠ G →
      lookupKey (S.merge n G R now).set.game gk =
        lookupKey (S.game.filter fun p => !(p.2.expiredBefore now)) gk)
    ∧ (∀ rk : RealmClaimKey, ¬(rk.realm_id = R ∧ rk.key.game_id = G) →
      lookupKey (S.merge n G R now).set.realm rk =
        lookupKey (S.realm.filter fun p => !(p.2.expiredBefore now)) rk)
    ∧ (∀ rep, (S.merge n G R now).reply = some rep → ∀ q ∈ rep.claims,
        (q.1.scope = ClaimScope.Global ∧ (q.1.key, q.2) ∈ (S.merge n G R now).set.global)
      ∨ (q.1.scope = ClaimScope.Game
          ∧ ((⟨G, q.1.key⟩ : GameClaimKey), q.2) ∈ (S.merge n G R now).set.game)
      ∨ (q.1.scope = ClaimScope.Realm
          ∧ ((⟨R, ⟨G, q.1.key⟩⟩ : RealmClaimKey), q.2) ∈ (S.merge n G R now).set.realm)) := by
  refine ⟨?_, ?_, ?_⟩
  · intro gk h
    rw [merge_set_def]
    exact mergeLoop_lookup_game G R n.claims _ gk fun q hq hcon => by
      apply h
      rw [← hcon.2]
  · intro rk h
    rw [merge_set_def]
    exact mergeLoop_lookup_realm G R n.claims _ rk fun q hq hcon => by
      apply h
      rw [← hcon.2]
      exact ⟨rfl, rfl⟩
  · intro rep hrep q hq
    have hrep' : rep = (mergeLoop G R (mergeInit S n G R now) n.claims).set.filtered_subset
        (fun k _ => decide
          (k ∈ (mergeLoop G R (mergeInit S n G R now) n.claims).changed_recently))
        (some n.date_synchronized) G R := by
      injection hrep.symm with hh
    rw [hrep'] at hq
    rcases mem_filtered_claims.mp hq with ⟨x, hx, hf, he⟩ | ⟨x, hx, hc, hf, he⟩
      | ⟨x, hx, hc, hf, he⟩
    · subst he
      exact Or.inl ⟨rfl, hx⟩
    · subst he
      refine Or.inr (Or.inl ⟨rfl, ?_⟩)
      have hgk : (⟨G, x.1.key⟩ : GameClaimKey) = x.1 := by
        rw [← hc]
      rw [merge_set_def]
      rw [hgk]
      exact hx
    · subst he
      refine Or.inr (Or.inr ⟨rfl, ?_⟩)
      have hrk : (⟨R, ⟨G, x.1.key.key⟩⟩ : RealmClaimKey) = x.1 := by
        rw [← hc.1, ← hc.2]
      rw [merge_set_def]
      rw [hrk]
      exact hx

/-- Witness for `merge_frame_property` at a concrete store holding entries of
two games and a foreign realm. -/
theorem merge_frame_property_witness :
    (lookupKey ((⟨[(⟨⟨"mk48"⟩, ⟨⟨"high_score"⟩, ClaimAggregation.Max⟩⟩, ⟨none, 1000, 100⟩),
          (⟨⟨"foo"⟩, ⟨⟨"high_score"⟩, ClaimAggregation.Max⟩⟩, ⟨none, 1, 7⟩)], [],
          [(⟨RealmId.Named ⟨"r"⟩, ⟨⟨"mk48"⟩, ⟨⟨"high_score"⟩, ClaimAggregation.Max⟩⟩⟩,
            ⟨none, 1, 9⟩)]⟩ : ClaimSet).merge
        ⟨[(⟨ClaimScope.Game, ⟨⟨"high_score"⟩, ClaimAggregation.Max⟩⟩, ⟨none, 1200, 80⟩)], 1200⟩
        ⟨"mk48"⟩ RealmId.PublicDefault 1300).set.game
        ⟨⟨"foo"⟩, ⟨⟨"high_score"⟩, ClaimAggregation.Max⟩⟩ =
      some ⟨none, 1, 7⟩)
    ∧ (lookupKey ((⟨[(⟨⟨"mk48"⟩, ⟨⟨"high_score"⟩, ClaimAggregation.Max⟩⟩, ⟨none, 1000, 100⟩),
          (⟨⟨"foo"⟩, ⟨⟨"high_score"⟩, ClaimAggregation.Max⟩⟩, ⟨none, 1, 7⟩)], [],
          [(⟨RealmId.Named ⟨"r"⟩, ⟨⟨"mk48"⟩, ⟨⟨"high_score"⟩, ClaimAggregation.Max⟩⟩⟩,
            ⟨none, 1, 9⟩)]⟩ : ClaimSet).merge
        ⟨[(⟨ClaimScope.Game, ⟨⟨"high_score"⟩, ClaimAggregation.Max⟩⟩, ⟨none, 1200, 80⟩)], 1200⟩
        ⟨"mk48"⟩ RealmId.PublicDefault 1300).set.realm
        ⟨RealmId.Named ⟨"r"⟩, ⟨⟨"mk48"⟩, ⟨⟨"high_score"⟩, ClaimAggregation.Max⟩⟩⟩ =
      some ⟨none, 1, 9⟩) := by
  have h := merge_frame_property
    ⟨[(⟨⟨"mk48"⟩, ⟨⟨"high_score"⟩, ClaimAggregation.Max⟩⟩, ⟨none, 1000, 100⟩),
      (⟨⟨"foo"⟩, ⟨⟨"high_score"⟩, ClaimAggregation.Max⟩⟩, ⟨none, 1, 7⟩)], [],
      [(⟨RealmId.Named ⟨"r"⟩, ⟨⟨"mk48"⟩, ⟨⟨"high_score"⟩, ClaimAggregation.Max⟩⟩⟩,
        ⟨none, 1, 9⟩)]⟩
    ⟨[(⟨ClaimScope.Game, ⟨⟨"high_score"⟩, ClaimAggregation.Max⟩⟩, ⟨none, 1200, 80⟩)], 1200⟩
    ⟨"mk48"⟩ RealmId.PublicDefault 1300
  constructor
  · rw [h.1 ⟨⟨"foo"⟩, ⟨⟨"high_score"⟩, ClaimAggregation.Max⟩⟩ (by decide)]
    decide
  · rw [h.2.1 ⟨RealmId.Named ⟨"r"⟩, ⟨⟨"mk48"⟩, ⟨⟨"high_score"⟩, ClaimAggregation.Max⟩⟩⟩
      (by decide)]
    decide

end Plasma
